import Mathlib

/-!
Shallow embedding of the gtest fixture/test-orchestration engine (gtest.go)
and proofs of its specified properties.

The embedding follows the source file function by function:
* contract validation (`validateFixtureConstructMethod`, `validateFixtureDestructMethod`)
  over a reflected view of Go method types;
* the fixture registry (`RegisterFixture`, `GetFixture`) as an association list,
  mirroring the process-wide Go map;
* the per-test-case resolver (`fixtureResolver.resolve`) as a fuel-indexed
  recursive function over dependency shapes, with the resolver cache, the
  cleanup list and the fixture instances' internal state threaded explicitly;
* the orchestrator (`RunSubTests`) as a function producing the trace of
  observable events (hooks, sub-unit brackets, construct/destruct calls,
  fatal aborts).

A fixture's `Construct` is effectful in Go (it may mutate the instance, e.g.
the counter fixtures in the repository's tests).  The model represents the
instances' mutable state by a per-instance invocation counter (`World`) and
canonically identifies the constructed value with the pair
(instance identity, invocation index), which is exactly the observable
behaviour of the counter-style fixtures the spec's scenarios use.  `t.Fatalf`
aborts the goroutine running the enclosing function (`runtime.Goexit`), which
the model renders as an `Except` error carrying the state at the failure.
-/

set_option autoImplicit false

namespace Gtest

/-- Fixture scopes, mirroring the constants `ScopeSubTest` and `ScopeCall`. -/
inductive FixtureScope where
  | subtest
  | call
  deriving DecidableEq, Repr

/-- Reflected kind of a Go type; the validator only distinguishes struct kinds
(`reflect.Struct`) from everything else. -/
inductive GoKind where
  | structKind
  | otherKind
  deriving DecidableEq, Repr

/-- Reflected Go type: its `String()` rendering and its `Kind()`. -/
structure GoType where
  str : String
  kind : GoKind
  deriving DecidableEq, Repr

/-- Default `GoType` used for out-of-range `In(i)` access (never reached after
the arity checks, mirroring the source's assumption). -/
def noType : GoType := { str := "", kind := GoKind.otherKind }

/-- Reflected method type: `ins` lists `In(0) .. In(NumIn-1)` (the receiver is
`In(0)`, as in Go reflection on a named type), `outs` lists the results. -/
structure MethodType where
  ins : List GoType
  outs : List GoType
  deriving DecidableEq, Repr

/-- Reflected type of a candidate fixture instance: its `String()` rendering
and its `Construct` / `Destruct` methods when present. -/
structure ReflectType where
  str : String
  constructM : Option MethodType
  destructM : Option MethodType
  deriving DecidableEq, Repr

/-- Mirror of `validateFixtureConstructMethod`: the method must exist, take
exactly (receiver, *testing.T, struct) and return exactly two values. -/
def validateFixtureConstructMethod (fType : ReflectType) : Except String Unit :=
  match fType.constructM with
  | none => Except.error (fType.str ++ " missing required Construct method.")
  | some m =>
    if m.ins.length ≠ 3 then
      Except.error (fType.str ++ "\x27s Construct method needs to take exactly 2 input parameter as fixtures struct, got: " ++ toString (m.ins.length - 1) ++ ".")
    else if m.outs.length ≠ 2 then
      Except.error (fType.str ++ "\x27s Construct method needs to return exactly 2 output parameters as as value and destruct context, got: " ++ toString m.outs.length ++ ".")
    else if (m.ins.getD 1 noType).str ≠ "*testing.T" then
      Except.error (fType.str ++ "\x27s Construct method needs to take *testing.T as first argument, got: " ++ (m.ins.getD 1 noType).str)
    else if (m.ins.getD 2 noType).kind ≠ GoKind.structKind then
      Except.error (fType.str ++ "\x27s Construct method needs to take a struct as second argument")
    else Except.ok ()

/-- Mirror of `validateFixtureDestructMethod`: the method must exist and take
exactly (receiver, *testing.T, interface \x7b\x7d).  Note that, exactly as in
the source, the number of output parameters of `Destruct` is never inspected. -/
def validateFixtureDestructMethod (fType : ReflectType) : Except String Unit :=
  match fType.destructM with
  | none => Except.error (fType.str ++ " missing required Destruct method.")
  | some m =>
    if m.ins.length ≠ 3 then
      Except.error (fType.str ++ "\x27s Destruct method needs to take exactly 2 input parameter as destruct context, got " ++ toString (m.ins.length - 1) ++ ".")
    else if (m.ins.getD 1 noType).str ≠ "*testing.T" then
      Except.error (fType.str ++ "\x27s Destruct method needs to take *testing.T as first argument, got: " ++ (m.ins.getD 1 noType).str)
    else if (m.ins.getD 2 noType).str ≠ "interface \x7b\x7d" then
      Except.error (fType.str ++ "\x27s Destruct method needs to take interface \x7b\x7d as second argument, got: " ++ (m.ins.getD 2 noType).str)
    else Except.ok ()

/-- Identity of a registered fixture instance (Go pointer identity: the
resolver cache is keyed by the instance, not by the registered name). -/
abbrev FixtureId := Nat

/-- A candidate fixture value: its identity and its reflected type. -/
structure FixtureVal where
  fid : FixtureId
  rtype : ReflectType
  deriving DecidableEq, Repr

/-- Mirror of `FixtureEntry`: declared scope plus the registered instance. -/
structure FixtureEntry where
  scope : FixtureScope
  fid : FixtureId
  deriving DecidableEq, Repr

/-- The fixture registry (`registeredFixtures`), a name-keyed map modelled as
an association list with earlier entries taking precedence on lookup. -/
abbrev Registry := List (String × FixtureEntry)

/-- Registry lookup, mirror of the Go map read. -/
def lookupReg : Registry → String → Option FixtureEntry
  | [], _ => none
  | (n, e) :: rest, name => if n = name then some e else lookupReg rest name

/-- Errors returned by `RegisterFixture`; the source returns `error` values
built with `fmt.Errorf`, classified here by the spec's taxonomy. -/
inductive RegError where
  | duplicateName (name : String) (scope : FixtureScope)
  | invalidContract (msg : String)
  deriving DecidableEq, Repr

/-- Mirror of `RegisterFixture`: duplicate-name check first, then the two
contract validators, then the store. -/
def RegisterFixture (reg : Registry) (name : String) (f : FixtureVal)
    (scope : FixtureScope) : Except RegError Registry :=
  match lookupReg reg name with
  | some entry => Except.error (RegError.duplicateName name entry.scope)
  | none =>
    match validateFixtureConstructMethod f.rtype with
    | Except.error msg => Except.error (RegError.invalidContract msg)
    | Except.ok _ =>
      match validateFixtureDestructMethod f.rtype with
      | Except.error msg => Except.error (RegError.invalidContract msg)
      | Except.ok _ => Except.ok (reg ++ [(name, { scope := scope, fid := f.fid })])

/-- Mirror of `GetFixture`. -/
def GetFixture (reg : Registry) (name : String) : Option FixtureEntry :=
  lookupReg reg name

/-- Go mutates the global registry map in place, so a failed `RegisterFixture`
leaves the registry as it was; `commitReg` renders that update semantics. -/
def commitReg (r : Except RegError Registry) (old : Registry) : Registry :=
  match r with
  | Except.ok newReg => newReg
  | Except.error _ => old

/-- A constructed fixture value, canonically identified by the producing
instance and the invocation index of its `Construct` call. -/
abbrev Value := FixtureId × Nat

/-- Internal mutable state of the fixture instances: how many times each
instance's `Construct` has been invoked so far (first entry wins). -/
abbrev World := List (FixtureId × Nat)

/-- The `*testing.T` handle a call receives: the group-level handle passed to
`RunSubTests`, or the per-sub-unit handle created by `t.Run`. -/
inductive Handle where
  | group
  | sub (name : String)
  deriving DecidableEq, Repr

/-- One entry of the `cleanUpCbs` list: the closure captures the instance, the
destruct context (identified with the construct invocation) and the handle. -/
abbrev Cleanup := FixtureId × Nat × Handle

/-- Failure modes reported through `t.Fatalf`. -/
inductive GError where
  | invalidFixturesKind (caller : String)
  | missingFixtureTag (fieldName caller : String)
  | unregisteredFixture (caller tagName : String)
  | fieldNotAssignable (caller fieldName : String)
  | missingTestingT (methodName : String)
  | badFirstParam (methodName : String)
  | tooManyParams (methodName : String) (count : Nat)
  | outOfFuel
  deriving DecidableEq, Repr

/-- Observable events of a test-group run. -/
inductive GEvent where
  | setup
  | teardown
  | construct (fid : FixtureId) (n : Nat) (args : List Value) (h : Handle)
  | destruct (fid : FixtureId) (n : Nat) (h : Handle)
  | subStart (name : String)
  | subEnd (name : String)
  | beforeEach (name : String)
  | afterEach (name : String)
  | body (name : String) (passed : Bool)
  | fatal (e : GError)
  deriving DecidableEq, Repr

/-- One field of a dependency shape.  `tag` is the parsed `fixture:"..."` tag
(`none` models a field whose tag is missing or unparseable, both of which
abort via `t.Fatalf`); `exported` models `CanSet()` on the target field. -/
structure Field where
  name : String
  tag : Option String
  exported : Bool
  deriving DecidableEq, Repr

/-- A reflected Go parameter type as seen by the orchestrator: `*testing.T`, a
struct (carrying its dependency-shape fields), or anything else. -/
inductive GoParam where
  | testingT
  | structOf (fields : List Field)
  | other (descr : String)
  deriving DecidableEq, Repr

/-- Behaviour of a registered fixture instance: the dependency shape declared
by its `Construct`'s second parameter (validated to be a struct at
registration time). -/
structure FixtureImpl where
  deps : List Field
  deriving DecidableEq, Repr

/-- State carried through one resolution: the resolver cache (`Resolved`,
keyed by instance identity, first entry wins), the accumulated `cleanUpCbs`,
the instances' internal state and the event trace so far. -/
structure RState where
  resolved : List (FixtureId × Value)
  cleanUpCbs : List Cleanup
  world : World
  trace : List GEvent
  deriving DecidableEq, Repr

/-- Cache lookup (`self.Resolved[f]`). -/
def lookupCache : List (FixtureId × Value) → FixtureId → Option Value
  | [], _ => none
  | (g, v) :: rest, f => if g = f then some v else lookupCache rest f

/-- Number of `Construct` invocations an instance has seen so far. -/
def worldCount : World → FixtureId → Nat
  | [], _ => 0
  | (g, n) :: rest, f => if g = f then n else worldCount rest f

/-- Record one more `Construct` invocation of `f`. -/
def bumpWorld (w : World) (f : FixtureId) : World :=
  (f, worldCount w f + 1) :: w

/-- State update performed by one `Construct` call: invoke the method (the
value and the destruct context are both identified by the invocation), append
the destruct closure to `cleanUpCbs`, and cache the value when the entry's
scope is `ScopeSubTest`. -/
def constructStep (t : Handle) (scope : FixtureScope) (f : FixtureId)
    (depVals : List Value) (st1 : RState) : RState :=
  let n := worldCount st1.world f
  { resolved := if scope = FixtureScope.subtest
      then (f, (f, n)) :: st1.resolved else st1.resolved
    cleanUpCbs := st1.cleanUpCbs ++ [(f, n, t)]
    world := bumpWorld st1.world f
    trace := st1.trace ++ [GEvent.construct f n depVals t] }

/-- The cache read guarded by the entry's scope: `ScopeSubTest` entries read
`self.Resolved[f]`, `ScopeCall` entries never hit the cache. -/
def scopeCache (fentry : FixtureEntry) (st : RState) : Option Value :=
  match fentry.scope with
  | FixtureScope.subtest => lookupCache st.resolved fentry.fid
  | FixtureScope.call => none

/-- Mirror of the field loop of `fixtureResolver.resolve`.  For each field:
read the fixture tag, look the name up in the registry, consult the cache for
`ScopeSubTest` entries, otherwise recursively resolve the fixture's own
dependency shape and invoke its `Construct`, then assign the value into the
output struct (`CanSet`).  Errors are `t.Fatalf` aborts and carry the state
reached at the failure.  The `fuel` argument is the standard rendering of
Go's unbounded recursion: every terminating Go execution is reproduced for
every sufficiently large fuel. -/
def resolveFields (reg : Registry) (impls : FixtureId → FixtureImpl) (t : Handle) :
    Nat → List Field → String → RState → Except (GError × RState) (List Value × RState)
  | 0, _, _, st => Except.error (GError.outOfFuel, st)
  | _ + 1, [], _, st => Except.ok ([], st)
  | fuel + 1, fld :: rest, caller, st =>
    match fld.tag with
    | none => Except.error (GError.missingFixtureTag fld.name caller, st)
    | some tagName =>
      match lookupReg reg tagName with
      | none => Except.error (GError.unregisteredFixture caller tagName, st)
      | some fentry =>
        match scopeCache fentry st with
        | some v =>
          if fld.exported then
            match resolveFields reg impls t fuel rest caller st with
            | Except.error err => Except.error err
            | Except.ok (vs, stF) => Except.ok (v :: vs, stF)
          else Except.error (GError.fieldNotAssignable caller fld.name, st)
        | none =>
          match resolveFields reg impls t fuel (impls fentry.fid).deps
              (tagName ++ ".Construct") st with
          | Except.error err => Except.error err
          | Except.ok (depVals, st1) =>
            if fld.exported then
              match resolveFields reg impls t fuel rest caller
                  (constructStep t fentry.scope fentry.fid depVals st1) with
              | Except.error err => Except.error err
              | Except.ok (vs, stF) =>
                Except.ok ((fentry.fid, worldCount st1.world fentry.fid) :: vs, stF)
            else Except.error (GError.fieldNotAssignable caller fld.name,
              constructStep t fentry.scope fentry.fid depVals st1)

/-- Mirror of the entry of `fixtureResolver.resolve`: the fixtures parameter
must be a struct, otherwise `t.Fatalf` aborts. -/
def resolve (reg : Registry) (impls : FixtureId → FixtureImpl) (t : Handle)
    (fuel : Nat) (p : GoParam) (caller : String) (st : RState) :
    Except (GError × RState) (List Value × RState) :=
  match p with
  | GoParam.structOf fields => resolveFields reg impls t fuel fields caller st
  | GoParam.testingT => Except.error (GError.invalidFixturesKind caller, st)
  | GoParam.other _ => Except.error (GError.invalidFixturesKind caller, st)

/-- The naming convention marker (`testMethodPrefix`). -/
def subTestMarker : String := "SubTest"

/-- Structural mirror of `strings.HasPrefix`: is `p` a prefix of `s`?  (The
char-list recursion is used instead of `String.startsWith` so that the model
computes by kernel reduction.) -/
def charsPre : List Char → List Char → Bool
  | [], _ => true
  | _ :: _, [] => false
  | c :: cs, d :: ds => c == d && charsPre cs ds

/-- `strings.HasPrefix p s` on the models of Go strings. -/
def strHasPre (p s : String) : Bool := charsPre p.data s.data

/-- Mirror of `strings.TrimPrefix` applied to a method name. -/
def trimmed (s : String) : String :=
  if strHasPre subTestMarker s then String.mk (s.data.drop subTestMarker.data.length) else s

/-- A discovered method of the test-group value: its name and the reflected
parameter types after the receiver (`method.Type.NumIn() - 1` entries). -/
structure Method where
  name : String
  params : List GoParam
  deriving Repr

/-- A test group: its methods in discovery order, plus the pass/fail outcome
of each (non-fatally asserting) test body, indexed by method name. -/
structure TestGroup where
  methods : List Method
  outcomes : String → Bool

/-- Fresh resolver state for one test-case invocation (`newFixtureResolver`
plus the empty `cleanUpCbs` slice), over the instances' current state. -/
def initState (w : World) : RState :=
  { resolved := [], cleanUpCbs := [], world := w, trace := [] }

/-- Events of one executed sub-unit (`t.Run` body): `BeforeEach`, the case
body, the accumulated cleanups in order, then `AfterEach`. -/
def subUnit (n : String) (b : Bool) (cleanups : List Cleanup) : List GEvent :=
  [GEvent.subStart n, GEvent.beforeEach n, GEvent.body n b]
    ++ cleanups.map (fun c => GEvent.destruct c.1 c.2.1 c.2.2)
    ++ [GEvent.afterEach n, GEvent.subEnd n]

/-- One iteration of the discovery loop of `RunSubTests` for a method that
matched the prefix: validate the parameter shape, resolve the optional
fixtures struct against the group-level handle, then run the sub-unit.
A `t.Fatalf` on the group handle aborts the whole run (`Except.error`,
carrying the events up to and including the fatal report). -/
def runMethod (reg : Registry) (impls : FixtureId → FixtureImpl) (fuel : Nat)
    (m : Method) (b : Bool) (w : World) : Except (List GEvent) (List GEvent × World) :=
  match m.params with
  | [] => Except.error [GEvent.fatal (GError.missingTestingT m.name)]
  | GoParam.testingT :: restParams =>
    match restParams with
    | [] => Except.ok (subUnit (trimmed m.name) b [], w)
    | [p2] =>
      match resolve reg impls Handle.group fuel p2 m.name (initState w) with
      | Except.error (e, stE) => Except.error (stE.trace ++ [GEvent.fatal e])
      | Except.ok (_, stR) =>
        Except.ok (stR.trace ++ subUnit (trimmed m.name) b stR.cleanUpCbs, stR.world)
    | _ :: _ :: _ =>
      Except.error [GEvent.fatal (GError.tooManyParams m.name (restParams.length + 1))]
  | _ :: _ => Except.error [GEvent.fatal (GError.badFirstParam m.name)]

/-- The discovery loop of `RunSubTests`: methods not matching the prefix are
skipped; a fatal abort ends the run (no further methods, no `Teardown`). -/
def runLoop (reg : Registry) (impls : FixtureId → FixtureImpl) (fuel : Nat)
    (outcomes : String → Bool) : List Method → World → List GEvent
  | [], _ => [GEvent.teardown]
  | m :: rest, w =>
    if strHasPre subTestMarker m.name then
      match runMethod reg impls fuel m (outcomes m.name) w with
      | Except.error evs => evs
      | Except.ok (evs, w1) => evs ++ runLoop reg impls fuel outcomes rest w1
    else runLoop reg impls fuel outcomes rest w

/-- Mirror of `RunSubTests`: `Setup`, the discovery loop, `Teardown`. -/
def RunSubTests (reg : Registry) (impls : FixtureId → FixtureImpl) (fuel : Nat)
    (g : TestGroup) (w0 : World) : List GEvent :=
  GEvent.setup :: runLoop reg impls fuel g.outcomes g.methods w0

/-! Derived observations on traces and states. -/

/-- Keys (instance, invocation) of the `Construct` calls recorded in a trace,
in order. -/
def constructKeys (tr : List GEvent) : List (FixtureId × Nat) :=
  tr.filterMap fun e =>
    match e with
    | GEvent.construct f n _ _ => some (f, n)
    | _ => none

/-- Keys (instance, invocation) of a cleanup list, in order. -/
def cleanKeys (cl : List Cleanup) : List (FixtureId × Nat) :=
  cl.map fun c => (c.1, c.2.1)

/-- Number of `Construct` calls of instance `f` recorded in a trace. -/
def cCount (f : FixtureId) (tr : List GEvent) : Nat :=
  ((constructKeys tr).filter fun p => p.1 == f).length

/-- Number of cleanup actions for instance `f` in a cleanup list. -/
def clCount (f : FixtureId) (cl : List Cleanup) : Nat :=
  ((cleanKeys cl).filter fun p => p.1 == f).length

/-- Does this field reference (via its fixture tag and the registry) the
instance `f`? -/
def refersToB (reg : Registry) (fld : Field) (f : FixtureId) : Bool :=
  match fld.tag with
  | none => false
  | some tg =>
    match lookupReg reg tg with
    | none => false
    | some e => e.fid == f

/-- Every name bound to instance `f` is registered with `ScopeSubTest`. -/
def scopeCoherent (reg : Registry) (f : FixtureId) : Prop :=
  ∀ p ∈ reg, p.2.fid = f → p.2.scope = FixtureScope.subtest

/-- Every name bound to instance `f` is registered with `ScopeCall`. -/
def scopeCallCoherent (reg : Registry) (f : FixtureId) : Prop :=
  ∀ p ∈ reg, p.2.fid = f → p.2.scope = FixtureScope.call

/-- Every registry entry this field's tag can resolve to has rank below `r`. -/
def fldBound (reg : Registry) (rank : FixtureId → Nat) (fld : Field) (r : Nat) : Prop :=
  ∀ q ∈ reg, fld.tag = some q.1 → rank q.2.fid < r

/-- The registry's dependency graph is acyclic, witnessed by a rank function:
every fixture's dependency shape references only strictly lower-ranked
instances.  This is the termination assumption the spec itself makes about
fixture dependency shapes. -/
def ranked (reg : Registry) (impls : FixtureId → FixtureImpl)
    (rank : FixtureId → Nat) : Prop :=
  ∀ p ∈ reg, ∀ fld ∈ (impls p.2.fid).deps, fldBound reg rank fld (rank p.2.fid)

/-- No registered fixture's own dependency shape references instance `f`
(`f` is referenced only directly by test-case shapes). -/
def notNested (reg : Registry) (impls : FixtureId → FixtureImpl) (f : FixtureId) : Prop :=
  ∀ p ∈ reg, ∀ fld ∈ (impls p.2.fid).deps, refersToB reg fld f = false

/-- Agreement between the recorded `Construct` calls and the cache: every
`Construct` call in the trace received, at each position of its dependency
shape that references instance `f`, exactly the value the cache holds for
`f`.  This is the invariant that makes nested references share the cached
value. -/
def argsOk (reg : Registry) (impls : FixtureId → FixtureImpl) (f : FixtureId)
    (resolved : List (FixtureId × Value)) (tr : List GEvent) : Prop :=
  ∀ (g n : Nat) (args : List Value) (t2 : Handle),
    GEvent.construct g n args t2 ∈ tr →
    ∀ (i : Nat) (hi : i < (impls g).deps.length) (ha : i < args.length),
      refersToB reg ((impls g).deps.get ⟨i, hi⟩) f = true →
      lookupCache resolved f = some (args.get ⟨i, ha⟩)

/-- Name of a `subStart` event, if any. -/
def subStartName : GEvent → Option String
  | GEvent.subStart n => some n
  | _ => none

/-- The sub-unit names started in a trace, in order. -/
def subStarts (tr : List GEvent) : List String :=
  tr.filterMap subStartName

/-- Is this event a fatal abort? -/
def isFatalEv : GEvent → Bool
  | GEvent.fatal _ => true
  | _ => false

instance (reg : Registry) (f : FixtureId) : Decidable (scopeCoherent reg f) := by
  unfold scopeCoherent
  infer_instance

instance (reg : Registry) (f : FixtureId) : Decidable (scopeCallCoherent reg f) := by
  unfold scopeCallCoherent
  infer_instance

instance (reg : Registry) (rank : FixtureId → Nat) (fld : Field) (r : Nat) :
    Decidable (fldBound reg rank fld r) := by
  unfold fldBound
  infer_instance

instance (reg : Registry) (impls : FixtureId → FixtureImpl) (rank : FixtureId → Nat) :
    Decidable (ranked reg impls rank) := by
  unfold ranked
  infer_instance

instance (reg : Registry) (impls : FixtureId → FixtureImpl) (f : FixtureId) :
    Decidable (notNested reg impls f) := by
  unfold notNested
  infer_instance

/-! Basic lemmas about the association-list operations. -/

/-! Concrete fixtures, shapes and groups used by the claim witnesses and
counterexamples. -/

/-- Leaf fixture implementations (empty dependency shapes). -/
def wImpls0 : FixtureId → FixtureImpl := fun _ => { deps := [] }

/-- Registry for the C1 witness: the shared subtest-scoped instance 0 (a
database-transaction-style fixture) registered under the two names Tx and
TxAlias, plus the two call-scoped fixtures RepoA and RepoB that both depend
on it through those two different names. -/
def wRegD : Registry :=
  [("Tx", { scope := FixtureScope.subtest, fid := 0 }),
   ("TxAlias", { scope := FixtureScope.subtest, fid := 0 }),
   ("RepoA", { scope := FixtureScope.call, fid := 1 }),
   ("RepoB", { scope := FixtureScope.call, fid := 2 })]

/-- Implementations for the C1 witness: RepoA and RepoB each declare a
dependency on instance 0 through a different registered name. -/
def wImplsD : FixtureId → FixtureImpl := fun i =>
  if i = 1 then { deps := [{ name := "T", tag := some "Tx", exported := true }] }
  else if i = 2 then { deps := [{ name := "T", tag := some "TxAlias", exported := true }] }
  else { deps := [] }

/-- Rank function witnessing the acyclicity of the C1 witness registry. -/
def wRankD : FixtureId → Nat := fun i => if i = 0 then 0 else 1

/-- Shape for the C1 witness: the test references only RepoA and RepoB — the
shared instance 0 is reached exclusively through nested dependency shapes. -/
def wFieldsD : List Field :=
  [{ name := "A", tag := some "RepoA", exported := true },
   { name := "B", tag := some "RepoB", exported := true }]

/-- Values produced for the C1 witness shape. -/
def wValsD : List Value := [(1, 0), (2, 0)]

/-- Final resolver state of the C1 witness resolution: instance 0 constructed
once, cached by identity, and handed to both RepoA's and RepoB's Construct. -/
def wStD : RState :=
  { resolved := [(0, (0, 0))],
    cleanUpCbs := [(0, 0, Handle.group), (1, 0, Handle.group), (2, 0, Handle.group)],
    world := [(2, 1), (1, 1), (0, 1)],
    trace := [GEvent.construct 0 0 [] Handle.group,
      GEvent.construct 1 0 [(0, 0)] Handle.group,
      GEvent.construct 2 0 [(0, 0)] Handle.group] }

/-- Registry for the C2 witness: instance 1 registered call-scoped as Uid. -/
def wRegB : Registry := [("Uid", { scope := FixtureScope.call, fid := 1 })]

/-- Shape for the C2 witness: three references to the call-scoped fixture. -/
def wFieldsB : List Field :=
  [{ name := "U1", tag := some "Uid", exported := true },
   { name := "U2", tag := some "Uid", exported := true },
   { name := "U3", tag := some "Uid", exported := true }]

/-- Values produced for the C2 witness shape: three distinct invocations. -/
def wValsB : List Value := [(1, 0), (1, 1), (1, 2)]

/-- Final resolver state of the C2 witness resolution. -/
def wStB : RState :=
  { resolved := [],
    cleanUpCbs := [(1, 0, Handle.group), (1, 1, Handle.group), (1, 2, Handle.group)],
    world := [(1, 3), (1, 2), (1, 1)],
    trace := [GEvent.construct 1 0 [] Handle.group, GEvent.construct 1 1 [] Handle.group,
      GEvent.construct 1 2 [] Handle.group] }

/-- Registry for the C8 witness: call-scoped UserId (instance 1) and MockUser
(instance 2), MockUser depending on UserId. -/
def wRegC : Registry :=
  [("UserId", { scope := FixtureScope.call, fid := 1 }),
   ("MockUser", { scope := FixtureScope.call, fid := 2 })]

/-- Implementations for the C8 witness: MockUser's Construct declares a
dependency shape referencing UserId. -/
def wImplsC : FixtureId → FixtureImpl := fun i =>
  if i = 2 then { deps := [{ name := "UserId", tag := some "UserId", exported := true }] }
  else { deps := [] }

/-- Shape for the C8 witness: one reference to MockUser. -/
def wFieldsC : List Field := [{ name := "User", tag := some "MockUser", exported := true }]

/-- Final resolver state of the C8 witness resolution. -/
def wStC : RState :=
  { resolved := [],
    cleanUpCbs := [(1, 0, Handle.group), (2, 0, Handle.group)],
    world := [(2, 1), (1, 1)],
    trace := [GEvent.construct 1 0 [] Handle.group,
      GEvent.construct 2 0 [(1, 0)] Handle.group] }

/-- Group and method for the orchestrator witnesses: one fixtures-declaring
method over the call-scoped Uid instance. -/
def wMethodFix : Method :=
  { name := "SubTestFix",
    params := [GoParam.testingT,
      GoParam.structOf [{ name := "U1", tag := some "Uid", exported := true }]] }

/-- Group for the C7 and C9 witnesses: two prefixed methods (one of them
failing, one with fixtures) and one helper that must be ignored. -/
def wGroupA : TestGroup :=
  { methods := [{ name := "SubTestA", params := [GoParam.testingT] },
      { name := "Helper", params := [GoParam.testingT] },
      wMethodFix],
    outcomes := fun n => n != "SubTestA" }

/-- A test-group method whose fixtures struct has a single field tagged with
the fixture name `tg`. -/
def taggedMethod (mname fldName tg : String) (exprt : Bool) : Method :=
  ⟨mname, [GoParam.testingT, GoParam.structOf [⟨fldName, some tg, exprt⟩]]⟩

/-- Group for the C3 counterexample: the first prefixed method references the
unregistered name Nope; a sibling prefixed method follows. -/
def cexGroupC3 : TestGroup :=
  ⟨[taggedMethod "SubTestBroken" "X" "Nope" true,
    ⟨"SubTestGood", [GoParam.testingT]⟩],
   fun _ => true⟩

/-- A correctly shaped fixture reflect type (valid Construct and Destruct). -/
def wRTypeOk : ReflectType :=
  ⟨"pkg.Fix",
   some ⟨[⟨"pkg.Fix", GoKind.otherKind⟩, ⟨"*testing.T", GoKind.otherKind⟩,
      ⟨"struct \x7b\x7d", GoKind.structKind⟩],
     [⟨"string", GoKind.otherKind⟩, ⟨"interface \x7b\x7d", GoKind.otherKind⟩]⟩,
   some ⟨[⟨"pkg.Fix", GoKind.otherKind⟩, ⟨"*testing.T", GoKind.otherKind⟩,
      ⟨"interface \x7b\x7d", GoKind.otherKind⟩], []⟩⟩

/-- A Construct method type satisfying the contract validator. -/
def constructMT : MethodType :=
  ⟨[⟨"pkg.Bad", GoKind.otherKind⟩, ⟨"*testing.T", GoKind.otherKind⟩,
    ⟨"struct \x7b\x7d", GoKind.structKind⟩],
   [⟨"string", GoKind.otherKind⟩, ⟨"interface \x7b\x7d", GoKind.otherKind⟩]⟩

/-- A Destruct method type with correct parameters but a NON-EMPTY return:
the claim says such a shape must be rejected at registration. -/
def badDestructMT : MethodType :=
  ⟨[⟨"pkg.Bad", GoKind.otherKind⟩, ⟨"*testing.T", GoKind.otherKind⟩,
    ⟨"interface \x7b\x7d", GoKind.otherKind⟩],
   [⟨"string", GoKind.otherKind⟩]⟩

/-- A candidate fixture type whose Destruct returns a value. -/
def badRT : ReflectType := ⟨"pkg.Bad", some constructMT, some badDestructMT⟩

/-! Lemmas and claim theorems. -/

theorem lookupReg_mem {reg : Registry} {name : String} {e : FixtureEntry}
    (h : lookupReg reg name = some e) : (name, e) ∈ reg := by
  induction reg with
  | nil => simp [lookupReg] at h
  | cons p rest ih =>
    rw [lookupReg] at h
    by_cases hn : p.1 = name
    · rw [if_pos hn] at h
      cases h
      rw [← hn]
      exact List.mem_cons_self _ _
    · rw [if_neg hn] at h
      exact List.mem_cons_of_mem _ (ih h)

theorem lookupCache_cons_ne {l : List (FixtureId × Value)} {f g : FixtureId} {v : Value}
    (h : f ≠ g) : lookupCache ((f, v) :: l) g = lookupCache l g := by
  simp [lookupCache, h]

theorem worldCount_bump (w : World) (f g : FixtureId) :
    worldCount (bumpWorld w f) g
      = if f = g then worldCount w f + 1 else worldCount w g := by
  simp [bumpWorld, worldCount]

theorem constructKeys_append (a b : List GEvent) :
    constructKeys (a ++ b) = constructKeys a ++ constructKeys b := by
  simp [constructKeys, List.filterMap_append]

theorem cleanKeys_append (a b : List Cleanup) :
    cleanKeys (a ++ b) = cleanKeys a ++ cleanKeys b := by
  simp [cleanKeys]

theorem cCount_append (f : FixtureId) (a b : List GEvent) :
    cCount f (a ++ b) = cCount f a + cCount f b := by
  simp [cCount, constructKeys_append, List.filter_append]

theorem clCount_append (f : FixtureId) (a b : List Cleanup) :
    clCount f (a ++ b) = clCount f a + clCount f b := by
  simp [clCount, cleanKeys_append, List.filter_append]

theorem cCount_construct_single (f g : FixtureId) (n : Nat) (args : List Value) (t : Handle) :
    cCount f [GEvent.construct g n args t] = if g = f then 1 else 0 := by
  by_cases h : g = f <;> simp [cCount, constructKeys, h]

theorem clCount_single (f g : FixtureId) (n : Nat) (t : Handle) :
    clCount f [(g, n, t)] = if g = f then 1 else 0 := by
  by_cases h : g = f <;> simp [clCount, cleanKeys, h]

/-! Inversion of one field step of the resolver. -/

/-- Inversion principle for a successful resolution step on a non-empty
shape: the field's tag parsed and resolved in the registry, the target field
is settable, and either a `ScopeSubTest` cache hit served the value, or the
fixture's dependency shape was resolved recursively and its `Construct`
invoked. -/
theorem resolveFields_cons_inv {reg : Registry} {impls : FixtureId → FixtureImpl}
    {t : Handle} {fuel : Nat} {fld : Field} {rest : List Field} {caller : String}
    {st : RState} {vals : List Value} {stF : RState}
    (h : resolveFields reg impls t (fuel + 1) (fld :: rest) caller st
      = Except.ok (vals, stF)) :
    ∃ tagName fentry, fld.tag = some tagName ∧ lookupReg reg tagName = some fentry ∧
      fld.exported = true ∧
      ((∃ v vs, fentry.scope = FixtureScope.subtest ∧
          lookupCache st.resolved fentry.fid = some v ∧
          resolveFields reg impls t fuel rest caller st = Except.ok (vs, stF) ∧
          vals = v :: vs) ∨
        (∃ depVals st1 vs,
          (fentry.scope = FixtureScope.subtest →
            lookupCache st.resolved fentry.fid = none) ∧
          resolveFields reg impls t fuel (impls fentry.fid).deps
              (tagName ++ ".Construct") st = Except.ok (depVals, st1) ∧
          resolveFields reg impls t fuel rest caller
              (constructStep t fentry.scope fentry.fid depVals st1)
            = Except.ok (vs, stF) ∧
          vals = (fentry.fid, worldCount st1.world fentry.fid) :: vs)) := by
  have hsc : ∀ (fentry : FixtureEntry) (st0 : RState) v,
      scopeCache fentry st0 = some v →
      fentry.scope = FixtureScope.subtest ∧ lookupCache st0.resolved fentry.fid = some v := by
    intro fentry st0 v hv
    rcases hscope : fentry.scope with _ | _
    · rw [scopeCache, hscope] at hv
      exact ⟨rfl, hv⟩
    · rw [scopeCache, hscope] at hv
      exact Option.noConfusion hv
  have hscn : ∀ (fentry : FixtureEntry) (st0 : RState),
      scopeCache fentry st0 = none →
      fentry.scope = FixtureScope.subtest → lookupCache st0.resolved fentry.fid = none := by
    intro fentry st0 hv hscope
    rw [scopeCache, hscope] at hv
    exact hv
  rw [resolveFields] at h
  split at h
  · exact Except.noConfusion h
  rename_i tagName hft
  split at h
  · exact Except.noConfusion h
  rename_i fentry hreg
  refine ⟨tagName, fentry, hft, hreg, ?_⟩
  split at h
  · -- cache hit
    rename_i v hv
    split at h
    · -- exported
      rename_i hexp
      split at h
      · exact Except.noConfusion h
      rename_i vs stF2 hrest
      rcases h with ⟨⟩
      rcases hsc fentry st v hv with ⟨hsub, hl⟩
      exact ⟨hexp, Or.inl ⟨v, vs, hsub, hl, hrest, rfl⟩⟩
    · exact Except.noConfusion h
  · -- cache miss: construct
    rename_i hv
    split at h
    · exact Except.noConfusion h
    rename_i depVals st1 hrec
    split at h
    · -- exported
      rename_i hexp
      split at h
      · exact Except.noConfusion h
      rename_i vs stF2 hrest
      rcases h with ⟨⟩
      exact ⟨hexp, Or.inr ⟨depVals, st1, vs, hscn fentry st hv, hrec, hrest, rfl⟩⟩
    · exact Except.noConfusion h

theorem constructStep_trace (t : Handle) (sc : FixtureScope) (f : FixtureId)
    (depVals : List Value) (st1 : RState) :
    (constructStep t sc f depVals st1).trace
      = st1.trace ++ [GEvent.construct f (worldCount st1.world f) depVals t] := rfl

theorem constructStep_clean (t : Handle) (sc : FixtureScope) (f : FixtureId)
    (depVals : List Value) (st1 : RState) :
    (constructStep t sc f depVals st1).cleanUpCbs
      = st1.cleanUpCbs ++ [(f, worldCount st1.world f, t)] := rfl

theorem constructStep_world (t : Handle) (sc : FixtureScope) (f : FixtureId)
    (depVals : List Value) (st1 : RState) :
    (constructStep t sc f depVals st1).world = bumpWorld st1.world f := rfl

theorem constructStep_resolved (t : Handle) (sc : FixtureScope) (f : FixtureId)
    (depVals : List Value) (st1 : RState) :
    (constructStep t sc f depVals st1).resolved
      = if sc = FixtureScope.subtest
        then (f, (f, worldCount st1.world f)) :: st1.resolved else st1.resolved := rfl

theorem constructStep_lookup_ne {sc : FixtureScope} {f g : FixtureId}
    (t : Handle) (depVals : List Value) (st1 : RState) (hne : f ≠ g) :
    lookupCache (constructStep t sc f depVals st1).resolved g
      = lookupCache st1.resolved g := by
  rw [constructStep_resolved]
  rcases sc with _ | _
  · simp [lookupCache, hne]
  · simp

theorem constructStep_lookup_subtest (t : Handle) (f : FixtureId)
    (depVals : List Value) (st1 : RState) :
    lookupCache (constructStep t FixtureScope.subtest f depVals st1).resolved f
      = some (f, worldCount st1.world f) := by
  simp [constructStep_resolved, lookupCache]

/-- Evolution of the resolver state over one successful resolution: one value
per field; the trace and the cleanup list only grow, the new trace entries are
exactly `Construct` calls against the given handle, and the new cleanup
entries correspond one to one, in order, to the new `Construct` calls. -/
theorem resolveFields_evo {reg : Registry} {impls : FixtureId → FixtureImpl} {t : Handle} :
    ∀ (fuel : Nat) (fields : List Field) (caller : String) (st : RState)
      (vals : List Value) (stF : RState),
      resolveFields reg impls t fuel fields caller st = Except.ok (vals, stF) →
      vals.length = fields.length ∧
      ∃ dt dc,
        stF.trace = st.trace ++ dt ∧
        stF.cleanUpCbs = st.cleanUpCbs ++ dc ∧
        cleanKeys dc = constructKeys dt ∧
        (∀ e ∈ dt, ∃ g n args, e = GEvent.construct g n args t) ∧
        (∀ c ∈ dc, c.2.2 = t) := by
  intro fuel
  induction fuel with
  | zero =>
    intro fields caller st vals stF h
    rw [resolveFields] at h
    exact Except.noConfusion h
  | succ fuel ih =>
    intro fields caller st vals stF h
    cases fields with
    | nil =>
      rw [resolveFields] at h
      rcases h with ⟨⟩
      exact ⟨rfl, [], [], by simp, by simp, rfl, by simp, by simp⟩
    | cons fld rest =>
      obtain ⟨tagName, fentry, hft, hreg, hexp, hbr⟩ := resolveFields_cons_inv h
      rcases hbr with ⟨v, vs, hsub, hl, hrest, hvals⟩ |
        ⟨depVals, st1, vs, hmiss, hrec, hrest, hvals⟩
      · obtain ⟨hlen, dt, dc, htr, hcl, hkeys, hdt, hdc⟩ := ih rest caller st vs stF hrest
        subst hvals
        exact ⟨by simpa using hlen, dt, dc, htr, hcl, hkeys, hdt, hdc⟩
      · obtain ⟨hlen1, dt1, dc1, htr1, hcl1, hkeys1, hdt1, hdc1⟩ :=
          ih (impls fentry.fid).deps (tagName ++ ".Construct") st depVals st1 hrec
        obtain ⟨hlen2, dt2, dc2, htr2, hcl2, hkeys2, hdt2, hdc2⟩ :=
          ih rest caller (constructStep t fentry.scope fentry.fid depVals st1) vs stF hrest
        subst hvals
        refine ⟨by simpa using hlen2,
          dt1 ++ [GEvent.construct fentry.fid (worldCount st1.world fentry.fid) depVals t]
            ++ dt2,
          dc1 ++ [(fentry.fid, worldCount st1.world fentry.fid, t)] ++ dc2, ?_, ?_, ?_, ?_, ?_⟩
        · rw [htr2, constructStep_trace, htr1]
          simp [List.append_assoc]
        · rw [hcl2, constructStep_clean, hcl1]
          simp [List.append_assoc]
        · simp only [cleanKeys_append, constructKeys_append, hkeys1, hkeys2]
          rfl
        · intro e he
          rcases List.mem_append.mp he with he1 | he2
          · rcases List.mem_append.mp he1 with he1a | he1b
            · exact hdt1 e he1a
            · rcases List.mem_singleton.mp he1b with rfl
              exact ⟨fentry.fid, worldCount st1.world fentry.fid, depVals, rfl⟩
          · exact hdt2 e he2
        · intro c hc
          rcases List.mem_append.mp hc with hc1 | hc2
          · rcases List.mem_append.mp hc1 with hc1a | hc1b
            · exact hdc1 c hc1a
            · rcases List.mem_singleton.mp hc1b with rfl
              rfl
          · exact hdc2 c hc2

theorem refersToB_resolve {reg : Registry} {fld : Field} {f : FixtureId}
    {tagName : String} {fentry : FixtureEntry}
    (hft : fld.tag = some tagName) (hreg : lookupReg reg tagName = some fentry) :
    refersToB reg fld f = (fentry.fid == f) := by
  simp [refersToB, hft, hreg]

/-- With an acyclic (ranked) registry, resolving a shape all of whose fields
resolve below rank `r` leaves every instance of rank at least `r` untouched:
its cache entry, its `Construct` count and its invocation counter are
unchanged. -/
theorem resolveFields_rank_untouched {reg : Registry} {impls : FixtureId → FixtureImpl}
    {rank : FixtureId → Nat} {t : Handle} (hr : ranked reg impls rank) :
    ∀ (fuel : Nat) (fields : List Field) (caller : String) (st : RState)
      (vals : List Value) (stF : RState) (r : Nat),
      resolveFields reg impls t fuel fields caller st = Except.ok (vals, stF) →
      (∀ fld ∈ fields, fldBound reg rank fld r) →
      ∀ g, r ≤ rank g →
        lookupCache stF.resolved g = lookupCache st.resolved g ∧
        cCount g stF.trace = cCount g st.trace ∧
        worldCount stF.world g = worldCount st.world g := by
  intro fuel
  induction fuel with
  | zero =>
    intro fields caller st vals stF r h
    rw [resolveFields] at h
    exact Except.noConfusion h
  | succ fuel ih =>
    intro fields caller st vals stF r h hb g hg
    cases fields with
    | nil =>
      rw [resolveFields] at h
      rcases h with ⟨⟩
      exact ⟨rfl, rfl, rfl⟩
    | cons fld rest =>
      obtain ⟨tagName, fentry, hft, hreg, hexp, hbr⟩ := resolveFields_cons_inv h
      have hmem : (tagName, fentry) ∈ reg := lookupReg_mem hreg
      have hrank : rank fentry.fid < r := hb fld (List.mem_cons_self _ _) (tagName, fentry) hmem hft
      have hne : fentry.fid ≠ g := by
        intro hfg
        rw [hfg] at hrank
        exact absurd (lt_of_lt_of_le hrank hg) (lt_irrefl _)
      rcases hbr with ⟨v, vs, hsub, hl, hrest, hvals⟩ |
        ⟨depVals, st1, vs, hmiss, hrec, hrest, hvals⟩
      · exact ih rest caller st vs stF r hrest
          (fun fld2 h2 => hb fld2 (List.mem_cons_of_mem _ h2)) g hg
      · have hdeps : ∀ fld2 ∈ (impls fentry.fid).deps, fldBound reg rank fld2 (rank fentry.fid) :=
          hr (tagName, fentry) hmem
        obtain ⟨hc1, hn1, hw1⟩ := ih (impls fentry.fid).deps (tagName ++ ".Construct") st
          depVals st1 (rank fentry.fid) hrec hdeps g (le_of_lt (lt_of_lt_of_le hrank hg))
        obtain ⟨hc2, hn2, hw2⟩ := ih rest caller
          (constructStep t fentry.scope fentry.fid depVals st1) vs stF r hrest
          (fun fld2 h2 => hb fld2 (List.mem_cons_of_mem _ h2)) g hg
        refine ⟨?_, ?_, ?_⟩
        · rw [hc2, constructStep_lookup_ne t depVals st1 hne, hc1]
        · rw [hn2, constructStep_trace, cCount_append, cCount_construct_single,
            if_neg hne, hn1, Nat.add_zero]
        · rw [hw2, constructStep_world, worldCount_bump, if_neg hne, hw1]

/-- Once a `ScopeSubTest` instance is cached, further resolution never
constructs it again and never changes its cached value. -/
theorem resolveFields_cached_stable {reg : Registry} {impls : FixtureId → FixtureImpl}
    {t : Handle} {f : FixtureId} (hcoh : scopeCoherent reg f) :
    ∀ (fuel : Nat) (fields : List Field) (caller : String) (st : RState)
      (vals : List Value) (stF : RState) (v0 : Value),
      resolveFields reg impls t fuel fields caller st = Except.ok (vals, stF) →
      lookupCache st.resolved f = some v0 →
      lookupCache stF.resolved f = some v0 ∧ cCount f stF.trace = cCount f st.trace := by
  intro fuel
  induction fuel with
  | zero =>
    intro fields caller st vals stF v0 h
    rw [resolveFields] at h
    exact Except.noConfusion h
  | succ fuel ih =>
    intro fields caller st vals stF v0 h hv0
    cases fields with
    | nil =>
      rw [resolveFields] at h
      rcases h with ⟨⟩
      exact ⟨hv0, rfl⟩
    | cons fld rest =>
      obtain ⟨tagName, fentry, hft, hreg, hexp, hbr⟩ := resolveFields_cons_inv h
      have hmem : (tagName, fentry) ∈ reg := lookupReg_mem hreg
      rcases hbr with ⟨v, vs, hsub, hl, hrest, hvals⟩ |
        ⟨depVals, st1, vs, hmiss, hrec, hrest, hvals⟩
      · exact ih rest caller st vs stF v0 hrest hv0
      · have hne : fentry.fid ≠ f := by
          intro hfg
          have := hmiss (hcoh (tagName, fentry) hmem hfg)
          rw [hfg] at this
          rw [this] at hv0
          exact Option.noConfusion hv0
        obtain ⟨hc1, hn1⟩ := ih (impls fentry.fid).deps (tagName ++ ".Construct") st
          depVals st1 v0 hrec hv0
        have hc2 : lookupCache (constructStep t fentry.scope fentry.fid depVals st1).resolved f
            = some v0 := by
          rw [constructStep_lookup_ne t depVals st1 hne, hc1]
        obtain ⟨hc3, hn3⟩ := ih rest caller
          (constructStep t fentry.scope fentry.fid depVals st1) vs stF v0 hrest hc2
        refine ⟨hc3, ?_⟩
        rw [hn3, constructStep_trace, cCount_append, cCount_construct_single,
          if_neg hne, hn1, Nat.add_zero]

/-- Resolution starting with no cache entry for a coherently `ScopeSubTest`
instance `f` either never constructs `f`, or constructs it exactly once and
caches the constructed value. -/
theorem resolveFields_first_construct {reg : Registry} {impls : FixtureId → FixtureImpl}
    {rank : FixtureId → Nat} {t : Handle} {f : FixtureId}
    (hr : ranked reg impls rank) (hcoh : scopeCoherent reg f) :
    ∀ (fuel : Nat) (fields : List Field) (caller : String) (st : RState)
      (vals : List Value) (stF : RState),
      resolveFields reg impls t fuel fields caller st = Except.ok (vals, stF) →
      lookupCache st.resolved f = none →
      (lookupCache stF.resolved f = none ∧ cCount f stF.trace = cCount f st.trace) ∨
      (∃ n, lookupCache stF.resolved f = some (f, n) ∧
        cCount f stF.trace = cCount f st.trace + 1) := by
  intro fuel
  induction fuel with
  | zero =>
    intro fields caller st vals stF h
    rw [resolveFields] at h
    exact Except.noConfusion h
  | succ fuel ih =>
    intro fields caller st vals stF h hnone
    cases fields with
    | nil =>
      rw [resolveFields] at h
      rcases h with ⟨⟩
      exact Or.inl ⟨hnone, rfl⟩
    | cons fld rest =>
      obtain ⟨tagName, fentry, hft, hreg, hexp, hbr⟩ := resolveFields_cons_inv h
      have hmem : (tagName, fentry) ∈ reg := lookupReg_mem hreg
      rcases hbr with ⟨v, vs, hsub, hl, hrest, hvals⟩ |
        ⟨depVals, st1, vs, hmiss, hrec, hrest, hvals⟩
      · exact ih rest caller st vs stF hrest hnone
      · by_cases hfid : fentry.fid = f
        · -- the first construction of f itself
          subst hfid
          have hscope : fentry.scope = FixtureScope.subtest := hcoh (tagName, fentry) hmem rfl
          have hdeps : ∀ fld2 ∈ (impls fentry.fid).deps,
              fldBound reg rank fld2 (rank fentry.fid) := hr (tagName, fentry) hmem
          obtain ⟨hc1, hn1, _⟩ := resolveFields_rank_untouched hr fuel
            (impls fentry.fid).deps (tagName ++ ".Construct") st depVals st1
            (rank fentry.fid) hrec hdeps fentry.fid (le_refl _)
          have hc2 : lookupCache (constructStep t fentry.scope fentry.fid depVals st1).resolved
              fentry.fid = some (fentry.fid, worldCount st1.world fentry.fid) := by
            rw [hscope]
            exact constructStep_lookup_subtest t fentry.fid depVals st1
          obtain ⟨hc3, hn3⟩ := resolveFields_cached_stable hcoh fuel rest caller
            (constructStep t fentry.scope fentry.fid depVals st1) vs stF
            (fentry.fid, worldCount st1.world fentry.fid) hrest hc2
          refine Or.inr ⟨worldCount st1.world fentry.fid, hc3, ?_⟩
          rw [hn3, constructStep_trace, cCount_append, cCount_construct_single,
            if_pos rfl, hn1]
        · -- a construction of some other instance
          rcases ih (impls fentry.fid).deps (tagName ++ ".Construct") st depVals st1 hrec hnone
            with ⟨hc1, hn1⟩ | ⟨n, hc1, hn1⟩
          · have hc2 : lookupCache (constructStep t fentry.scope fentry.fid depVals st1).resolved f
                = none := by
              rw [constructStep_lookup_ne t depVals st1 hfid, hc1]
            rcases ih rest caller (constructStep t fentry.scope fentry.fid depVals st1)
              vs stF hrest hc2 with ⟨hc3, hn3⟩ | ⟨n, hc3, hn3⟩
            · refine Or.inl ⟨hc3, ?_⟩
              rw [hn3, constructStep_trace, cCount_append, cCount_construct_single,
                if_neg hfid, hn1, Nat.add_zero]
            · refine Or.inr ⟨n, hc3, ?_⟩
              rw [hn3, constructStep_trace, cCount_append, cCount_construct_single,
                if_neg hfid, hn1, Nat.add_zero]
          · have hc2 : lookupCache (constructStep t fentry.scope fentry.fid depVals st1).resolved f
                = some (f, n) := by
              rw [constructStep_lookup_ne t depVals st1 hfid, hc1]
            obtain ⟨hc3, hn3⟩ := resolveFields_cached_stable hcoh fuel rest caller
              (constructStep t fentry.scope fentry.fid depVals st1) vs stF (f, n) hrest hc2
            refine Or.inr ⟨n, hc3, ?_⟩
            rw [hn3, constructStep_trace, cCount_append, cCount_construct_single,
              if_neg hfid, hn1, Nat.add_zero]

/-- Any direct reference to a coherently `ScopeSubTest` instance leaves it
cached after a successful resolution. -/
theorem resolveFields_ref_cached {reg : Registry} {impls : FixtureId → FixtureImpl}
    {t : Handle} {f : FixtureId} (hcoh : scopeCoherent reg f) :
    ∀ (fuel : Nat) (fields : List Field) (caller : String) (st : RState)
      (vals : List Value) (stF : RState),
      resolveFields reg impls t fuel fields caller st = Except.ok (vals, stF) →
      (∃ fld ∈ fields, refersToB reg fld f = true) →
      ∃ v, lookupCache stF.resolved f = some v := by
  intro fuel
  induction fuel with
  | zero =>
    intro fields caller st vals stF h
    rw [resolveFields] at h
    exact Except.noConfusion h
  | succ fuel ih =>
    intro fields caller st vals stF h href
    cases fields with
    | nil =>
      rcases href with ⟨fld, hmem, _⟩
      exact absurd hmem (List.not_mem_nil _)
    | cons fld0 rest =>
      obtain ⟨tagName, fentry, hft, hreg, hexp, hbr⟩ := resolveFields_cons_inv h
      rcases href with ⟨fld, hmemf, hrf⟩
      rcases List.mem_cons.mp hmemf with rfl | hmemf2
      · -- the head field is the reference
        have hfid : fentry.fid = f := by
          rw [refersToB_resolve hft hreg] at hrf
          exact eq_of_beq hrf
        subst hfid
        rcases hbr with ⟨v, vs, hsub, hl, hrest, hvals⟩ |
          ⟨depVals, st1, vs, hmiss, hrec, hrest, hvals⟩
        · exact ⟨v, (resolveFields_cached_stable hcoh fuel rest caller st vs stF v hrest hl).1⟩
        · have hscope : fentry.scope = FixtureScope.subtest :=
            hcoh (tagName, fentry) (lookupReg_mem hreg) rfl
          have hc2 : lookupCache (constructStep t fentry.scope fentry.fid depVals st1).resolved
              fentry.fid = some (fentry.fid, worldCount st1.world fentry.fid) := by
            rw [hscope]
            exact constructStep_lookup_subtest t fentry.fid depVals st1
          exact ⟨(fentry.fid, worldCount st1.world fentry.fid),
            (resolveFields_cached_stable hcoh fuel rest caller
              (constructStep t fentry.scope fentry.fid depVals st1) vs stF _ hrest hc2).1⟩
      · -- the reference is among the remaining fields
        rcases hbr with ⟨v, vs, hsub, hl, hrest, hvals⟩ |
          ⟨depVals, st1, vs, hmiss, hrec, hrest, hvals⟩
        · exact ih rest caller st vs stF hrest ⟨fld, hmemf2, hrf⟩
        · exact ih rest caller (constructStep t fentry.scope fentry.fid depVals st1)
            vs stF hrest ⟨fld, hmemf2, hrf⟩

/-- Every field of the shape that references a coherently `ScopeSubTest`
instance receives exactly the value cached for that instance at the end of
the resolution. -/
theorem resolveFields_subtest_values {reg : Registry} {impls : FixtureId → FixtureImpl}
    {t : Handle} {f : FixtureId} (hcoh : scopeCoherent reg f) :
    ∀ (fuel : Nat) (fields : List Field) (caller : String) (st : RState)
      (vals : List Value) (stF : RState),
      resolveFields reg impls t fuel fields caller st = Except.ok (vals, stF) →
      ∀ (i : Nat) (hi : i < fields.length) (hv : i < vals.length),
        refersToB reg (fields.get ⟨i, hi⟩) f = true →
        lookupCache stF.resolved f = some (vals.get ⟨i, hv⟩) := by
  intro fuel
  induction fuel with
  | zero =>
    intro fields caller st vals stF h
    rw [resolveFields] at h
    exact Except.noConfusion h
  | succ fuel ih =>
    intro fields caller st vals stF h i hi hv hrf
    cases fields with
    | nil => exact absurd hi (Nat.not_lt_zero _)
    | cons fld0 rest =>
      obtain ⟨tagName, fentry, hft, hreg, hexp, hbr⟩ := resolveFields_cons_inv h
      rcases hbr with ⟨v, vs, hsub, hl, hrest, hvals⟩ |
        ⟨depVals, st1, vs, hmiss, hrec, hrest, hvals⟩
      · subst hvals
        cases i with
        | zero =>
          simp only [List.get] at hrf ⊢
          have hfid : fentry.fid = f := by
            rw [refersToB_resolve hft hreg] at hrf
            exact eq_of_beq hrf
          subst hfid
          exact (resolveFields_cached_stable hcoh fuel rest caller st vs stF v hrest hl).1
        | succ i =>
          simp only [List.get] at hrf ⊢
          exact ih rest caller st vs stF hrest i (Nat.lt_of_succ_lt_succ hi)
            (Nat.lt_of_succ_lt_succ hv) hrf
      · subst hvals
        cases i with
        | zero =>
          simp only [List.get] at hrf ⊢
          have hfid : fentry.fid = f := by
            rw [refersToB_resolve hft hreg] at hrf
            exact eq_of_beq hrf
          subst hfid
          have hscope : fentry.scope = FixtureScope.subtest :=
            hcoh (tagName, fentry) (lookupReg_mem hreg) rfl
          have hc2 : lookupCache (constructStep t fentry.scope fentry.fid depVals st1).resolved
              fentry.fid = some (fentry.fid, worldCount st1.world fentry.fid) := by
            rw [hscope]
            exact constructStep_lookup_subtest t fentry.fid depVals st1
          exact (resolveFields_cached_stable hcoh fuel rest caller
            (constructStep t fentry.scope fentry.fid depVals st1) vs stF _ hrest hc2).1
        | succ i =>
          simp only [List.get] at hrf ⊢
          exact ih rest caller (constructStep t fentry.scope fentry.fid depVals st1)
            vs stF hrest i (Nat.lt_of_succ_lt_succ hi) (Nat.lt_of_succ_lt_succ hv) hrf

/-- Resolution of a shape with no reference to `f`, over a registry in which
no fixture's own dependency shape references `f` either, never constructs `f`:
its invocation counter, its `Construct` count and its cleanup entries are
untouched. -/
theorem resolveFields_unref_untouched {reg : Registry} {impls : FixtureId → FixtureImpl}
    {t : Handle} {f : FixtureId} (hnn : notNested reg impls f) :
    ∀ (fuel : Nat) (fields : List Field) (caller : String) (st : RState)
      (vals : List Value) (stF : RState),
      resolveFields reg impls t fuel fields caller st = Except.ok (vals, stF) →
      (∀ fld ∈ fields, refersToB reg fld f = false) →
      cCount f stF.trace = cCount f st.trace ∧
      worldCount stF.world f = worldCount st.world f ∧
      stF.cleanUpCbs.filter (fun c => c.1 == f)
        = st.cleanUpCbs.filter (fun c => c.1 == f) := by
  intro fuel
  induction fuel with
  | zero =>
    intro fields caller st vals stF h
    rw [resolveFields] at h
    exact Except.noConfusion h
  | succ fuel ih =>
    intro fields caller st vals stF h hno
    cases fields with
    | nil =>
      rw [resolveFields] at h
      rcases h with ⟨⟩
      exact ⟨rfl, rfl, rfl⟩
    | cons fld0 rest =>
      obtain ⟨tagName, fentry, hft, hreg, hexp, hbr⟩ := resolveFields_cons_inv h
      have hne : fentry.fid ≠ f := by
        have := hno fld0 (List.mem_cons_self _ _)
        rw [refersToB_resolve hft hreg] at this
        intro hfid
        rw [hfid] at this
        simp at this
      rcases hbr with ⟨v, vs, hsub, hl, hrest, hvals⟩ |
        ⟨depVals, st1, vs, hmiss, hrec, hrest, hvals⟩
      · exact ih rest caller st vs stF hrest
          (fun fld2 h2 => hno fld2 (List.mem_cons_of_mem _ h2))
      · have hdeps : ∀ fld2 ∈ (impls fentry.fid).deps, refersToB reg fld2 f = false :=
          hnn (tagName, fentry) (lookupReg_mem hreg)
        obtain ⟨hn1, hw1, hcl1⟩ := ih (impls fentry.fid).deps (tagName ++ ".Construct") st
          depVals st1 hrec hdeps
        obtain ⟨hn2, hw2, hcl2⟩ := ih rest caller
          (constructStep t fentry.scope fentry.fid depVals st1) vs stF hrest
          (fun fld2 h2 => hno fld2 (List.mem_cons_of_mem _ h2))
        refine ⟨?_, ?_, ?_⟩
        · rw [hn2, constructStep_trace, cCount_append, cCount_construct_single,
            if_neg hne, hn1, Nat.add_zero]
        · rw [hw2, constructStep_world, worldCount_bump, if_neg hne, hw1]
        · rw [hcl2, constructStep_clean, List.filter_append, hcl1]
          have hbf : (fentry.fid == f) = false := beq_eq_false_iff_ne.mpr hne
          have : ((fentry.fid, worldCount st1.world fentry.fid, t) :: ([] : List Cleanup)).filter
              (fun c => c.1 == f) = [] := by
            simp [List.filter, hbf]
          rw [this, List.append_nil]

/-- Each reference to a coherently `ScopeCall` instance `f` (not referenced by
any fixture's own dependency shape) triggers its own `Construct` call: the N
references of a shape, in declaration order, receive the values of N distinct
consecutive invocations, and N cleanup entries are appended in that order. -/
theorem resolveFields_call_fresh {reg : Registry} {impls : FixtureId → FixtureImpl}
    {t : Handle} {f : FixtureId}
    (hcall : scopeCallCoherent reg f) (hnn : notNested reg impls f) :
    ∀ (fuel : Nat) (fields : List Field) (caller : String) (st : RState)
      (vals : List Value) (stF : RState),
      resolveFields reg impls t fuel fields caller st = Except.ok (vals, stF) →
      worldCount stF.world f
        = worldCount st.world f + (fields.filter (fun fld => refersToB reg fld f)).length ∧
      cCount f stF.trace
        = cCount f st.trace + (fields.filter (fun fld => refersToB reg fld f)).length ∧
      ((fields.zip vals).filter (fun p => refersToB reg p.1 f)).map Prod.snd
        = (List.range (fields.filter (fun fld => refersToB reg fld f)).length).map
            (fun k => (f, worldCount st.world f + k)) ∧
      stF.cleanUpCbs.filter (fun c => c.1 == f)
        = st.cleanUpCbs.filter (fun c => c.1 == f)
          ++ (List.range (fields.filter (fun fld => refersToB reg fld f)).length).map
              (fun k => (f, worldCount st.world f + k, t)) := by
  intro fuel
  induction fuel with
  | zero =>
    intro fields caller st vals stF h
    rw [resolveFields] at h
    exact Except.noConfusion h
  | succ fuel ih =>
    intro fields caller st vals stF h
    cases fields with
    | nil =>
      rw [resolveFields] at h
      rcases h with ⟨⟩
      simp
    | cons fld0 rest =>
      obtain ⟨tagName, fentry, hft, hreg, hexp, hbr⟩ := resolveFields_cons_inv h
      by_cases href : refersToB reg fld0 f = true
      · -- the head field references f: fresh construction
        have hfid : fentry.fid = f := by
          rw [refersToB_resolve hft hreg] at href
          exact eq_of_beq href
        subst hfid
        have hscope : fentry.scope = FixtureScope.call :=
          hcall (tagName, fentry) (lookupReg_mem hreg) rfl
        rcases hbr with ⟨v, vs, hsub, hl, hrest, hvals⟩ |
          ⟨depVals, st1, vs, hmiss, hrec, hrest, hvals⟩
        · rw [hscope] at hsub
          exact FixtureScope.noConfusion hsub
        · have hdeps : ∀ fld2 ∈ (impls fentry.fid).deps, refersToB reg fld2 fentry.fid = false :=
            hnn (tagName, fentry) (lookupReg_mem hreg)
          obtain ⟨hn1, hw1, hcl1⟩ := resolveFields_unref_untouched hnn fuel
            (impls fentry.fid).deps (tagName ++ ".Construct") st depVals st1 hrec hdeps
          obtain ⟨hw2, hn2, hzip2, hcl2⟩ := ih rest caller
            (constructStep t fentry.scope fentry.fid depVals st1) vs stF hrest
          subst hvals
          have hwstep : worldCount (constructStep t fentry.scope fentry.fid depVals st1).world
              fentry.fid = worldCount st.world fentry.fid + 1 := by
            rw [constructStep_world, worldCount_bump, if_pos rfl, hw1]
          have hnstep : cCount fentry.fid
              (constructStep t fentry.scope fentry.fid depVals st1).trace
              = cCount fentry.fid st.trace + 1 := by
            rw [constructStep_trace, cCount_append, cCount_construct_single, if_pos rfl, hn1]
          have hclstep : (constructStep t fentry.scope fentry.fid depVals st1).cleanUpCbs.filter
              (fun c => c.1 == fentry.fid)
              = st.cleanUpCbs.filter (fun c => c.1 == fentry.fid)
                ++ [(fentry.fid, worldCount st.world fentry.fid, t)] := by
            rw [constructStep_clean, List.filter_append, hcl1, hw1]
            congr 1
            simp [List.filter]
          refine ⟨?_, ?_, ?_, ?_⟩
          · rw [hw2, hwstep, List.filter_cons, if_pos href]
            simp only [List.length_cons]
            omega
          · rw [hn2, hnstep, List.filter_cons, if_pos href]
            simp only [List.length_cons]
            omega
          · rw [List.zip_cons_cons, List.filter_cons]
            have hrefp : refersToB reg (fld0, (fentry.fid, worldCount st1.world fentry.fid)).1
                fentry.fid = true := href
            rw [if_pos hrefp, List.map_cons, hzip2, hw1, hwstep, List.filter_cons, if_pos href,
              List.length_cons, List.range_succ_eq_map, List.map_cons, List.map_map]
            refine congrArg₂ _ (by rw [Nat.add_zero]) ?_
            refine List.map_congr_left ?_
            intro k _
            simp only [Function.comp_apply, Prod.mk.injEq, Nat.succ_eq_add_one,
              true_and, and_true]
            omega
          · rw [hcl2, hclstep, hwstep, List.filter_cons, if_pos href,
              List.length_cons, List.range_succ_eq_map, List.map_cons, List.map_map,
              List.append_assoc, List.singleton_append]
            refine congrArg₂ _ rfl ?_
            refine congrArg₂ _ (by rw [Nat.add_zero]) ?_
            refine List.map_congr_left ?_
            intro k _
            simp only [Function.comp_apply, Prod.mk.injEq, Nat.succ_eq_add_one,
              true_and, and_true]
            omega
      · -- the head field does not reference f
        have hrf0 : refersToB reg fld0 f = false := by
          rcases hb : refersToB reg fld0 f with _ | _
          · rfl
          · exact absurd hb href
        have hne : fentry.fid ≠ f := by
          rw [refersToB_resolve hft hreg] at hrf0
          intro hfid
          rw [hfid] at hrf0
          simp at hrf0
        rcases hbr with ⟨v, vs, hsub, hl, hrest, hvals⟩ |
          ⟨depVals, st1, vs, hmiss, hrec, hrest, hvals⟩
        · obtain ⟨hw2, hn2, hzip2, hcl2⟩ := ih rest caller st vs stF hrest
          subst hvals
          refine ⟨?_, ?_, ?_, ?_⟩
          · rw [hw2, List.filter_cons, if_neg (by simp [hrf0])]
          · rw [hn2, List.filter_cons, if_neg (by simp [hrf0])]
          · rw [List.zip_cons_cons, List.filter_cons,
              if_neg (by simp [hrf0]), hzip2, List.filter_cons, if_neg (by simp [hrf0])]
          · rw [hcl2, List.filter_cons, if_neg (by simp [hrf0])]
        · have hdeps : ∀ fld2 ∈ (impls fentry.fid).deps, refersToB reg fld2 f = false :=
            hnn (tagName, fentry) (lookupReg_mem hreg)
          obtain ⟨hn1, hw1, hcl1⟩ := resolveFields_unref_untouched hnn fuel
            (impls fentry.fid).deps (tagName ++ ".Construct") st depVals st1 hrec hdeps
          obtain ⟨hw2, hn2, hzip2, hcl2⟩ := ih rest caller
            (constructStep t fentry.scope fentry.fid depVals st1) vs stF hrest
          subst hvals
          have hwstep : worldCount (constructStep t fentry.scope fentry.fid depVals st1).world f
              = worldCount st.world f := by
            rw [constructStep_world, worldCount_bump, if_neg hne, hw1]
          have hnstep : cCount f (constructStep t fentry.scope fentry.fid depVals st1).trace
              = cCount f st.trace := by
            rw [constructStep_trace, cCount_append, cCount_construct_single, if_neg hne,
              hn1, Nat.add_zero]
          have hclstep : (constructStep t fentry.scope fentry.fid depVals st1).cleanUpCbs.filter
              (fun c => c.1 == f) = st.cleanUpCbs.filter (fun c => c.1 == f) := by
            rw [constructStep_clean, List.filter_append, hcl1]
            have hbf : (fentry.fid == f) = false := beq_eq_false_iff_ne.mpr hne
            have : ((fentry.fid, worldCount st1.world fentry.fid, t) :: ([] : List Cleanup)).filter
                (fun c => c.1 == f) = [] := by
              simp [List.filter, hbf]
            rw [this, List.append_nil]
          refine ⟨?_, ?_, ?_, ?_⟩
          · rw [hw2, hwstep, List.filter_cons, if_neg (by simp [hrf0])]
          · rw [hn2, hnstep, List.filter_cons, if_neg (by simp [hrf0])]
          · rw [List.zip_cons_cons, List.filter_cons, if_neg (by simp [hrf0]), hzip2, hwstep,
              List.filter_cons, if_neg (by simp [hrf0])]
          · rw [hcl2, hclstep, hwstep, List.filter_cons, if_neg (by simp [hrf0])]

/-! Claim theorems about the resolver. -/

theorem refersToB_spec {reg : Registry} {fld : Field} {f : FixtureId}
    (h : refersToB reg fld f = true) :
    ∃ tg e, fld.tag = some tg ∧ lookupReg reg tg = some e ∧ e.fid = f := by
  rcases hft : fld.tag with _ | tg
  · simp only [refersToB, hft] at h
    exact Bool.noConfusion h
  · rcases hreg : lookupReg reg tg with _ | e
    · simp only [refersToB, hft, hreg] at h
      exact Bool.noConfusion h
    · simp only [refersToB, hft, hreg] at h
      exact ⟨tg, e, rfl, hreg, eq_of_beq h⟩

theorem constructStep_lookup_isSome {sc : FixtureScope} {gid f : FixtureId}
    (t : Handle) (depVals : List Value) (st1 : RState) (v : Value)
    (h : lookupCache st1.resolved f = some v) :
    ∃ v2, lookupCache (constructStep t sc gid depVals st1).resolved f = some v2 := by
  by_cases hg : gid = f
  · subst hg
    rcases sc with _ | _
    · exact ⟨(gid, worldCount st1.world gid), constructStep_lookup_subtest t gid depVals st1⟩
    · refine ⟨v, ?_⟩
      rw [constructStep_resolved]
      simp [h]
  · exact ⟨v, by rw [constructStep_lookup_ne t depVals st1 hg, h]⟩

/-- Preservation of the argument/cache agreement: over any successful
resolution (coherently subtest-scoped `f`, acyclic registry), every
`Construct` call — at any nesting depth — that references `f` in its
dependency shape receives exactly the currently cached value of `f`, and the
agreement persists to the final state. -/
theorem resolveFields_argsOk {reg : Registry} {impls : FixtureId → FixtureImpl}
    {rank : FixtureId → Nat} {t : Handle} {f : FixtureId}
    (hr : ranked reg impls rank) (hcoh : scopeCoherent reg f) :
    ∀ (fuel : Nat) (fields : List Field) (caller : String) (st : RState)
      (vals : List Value) (stF : RState),
      resolveFields reg impls t fuel fields caller st = Except.ok (vals, stF) →
      argsOk reg impls f st.resolved st.trace →
      argsOk reg impls f stF.resolved stF.trace := by
  intro fuel
  induction fuel with
  | zero =>
    intro fields caller st vals stF h
    rw [resolveFields] at h
    exact Except.noConfusion h
  | succ fuel ih =>
    intro fields caller st vals stF h hA
    cases fields with
    | nil =>
      rw [resolveFields] at h
      rcases h with ⟨⟩
      exact hA
    | cons fld0 rest =>
      obtain ⟨tagName, fentry, hft, hreg, hexp, hbr⟩ := resolveFields_cons_inv h
      rcases hbr with ⟨v, vs, hsub, hl, hrest, hvals⟩ |
        ⟨depVals, st1, vs, hmiss, hrec, hrest, hvals⟩
      · exact ih rest caller st vs stF hrest hA
      · have hmem : (tagName, fentry) ∈ reg := lookupReg_mem hreg
        have hA1 : argsOk reg impls f st1.resolved st1.trace :=
          ih (impls fentry.fid).deps (tagName ++ ".Construct") st depVals st1 hrec hA
        have hA2 : argsOk reg impls f
            (constructStep t fentry.scope fentry.fid depVals st1).resolved
            (constructStep t fentry.scope fentry.fid depVals st1).trace := by
          intro g n args t2 hmemE i hi ha hrf
          rw [constructStep_trace] at hmemE
          rcases List.mem_append.mp hmemE with hold | hnew
          · -- an event recorded before this construct step
            have hv := hA1 g n args t2 hold i hi ha hrf
            by_cases hg : fentry.fid = f
            · -- f itself is being constructed: its cache was empty, contradiction
              have hnone : lookupCache st.resolved f = none := by
                rw [← hg]
                exact hmiss (hcoh (tagName, fentry) hmem hg)
              have hdeps : ∀ fld2 ∈ (impls fentry.fid).deps,
                  fldBound reg rank fld2 (rank fentry.fid) := hr (tagName, fentry) hmem
              obtain ⟨hc1, _, _⟩ := resolveFields_rank_untouched hr fuel
                (impls fentry.fid).deps (tagName ++ ".Construct") st depVals st1
                (rank fentry.fid) hrec hdeps f (le_of_eq (by rw [hg]))
              rw [hnone] at hc1
              rw [hc1] at hv
              exact Option.noConfusion hv
            · rw [constructStep_lookup_ne t depVals st1 hg, hv]
          · -- the construct event of this very step
            injection List.mem_singleton.mp hnew with hg hn hargs ht2
            subst hg
            subst hargs
            by_cases hg2 : fentry.fid = f
            · -- acyclicity: f's own dependency shape cannot reference f
              obtain ⟨tg2, e2, htag2, hlook2, hfid2⟩ := refersToB_spec hrf
              have hrank := hr (tagName, fentry) hmem ((impls fentry.fid).deps.get ⟨i, hi⟩)
                (List.get_mem _ _ _) (tg2, e2) (lookupReg_mem hlook2) htag2
              rw [hfid2, ← hg2] at hrank
              exact absurd hrank (lt_irrefl _)
            · have hval := resolveFields_subtest_values hcoh fuel (impls fentry.fid).deps
                (tagName ++ ".Construct") st args st1 hrec i hi ha hrf
              rw [constructStep_lookup_ne t args st1 hg2, hval]
        exact ih rest caller _ vs stF hrest hA2

/-- Any `Construct` call recorded during a resolution whose dependency shape
references the coherently subtest-scoped instance `f` leaves `f` cached at
the end: nested references also force (and reuse) the cached value. -/
theorem resolveFields_nested_ref_cached {reg : Registry} {impls : FixtureId → FixtureImpl}
    {t : Handle} {f : FixtureId} (hcoh : scopeCoherent reg f) :
    ∀ (fuel : Nat) (fields : List Field) (caller : String) (st : RState)
      (vals : List Value) (stF : RState),
      resolveFields reg impls t fuel fields caller st = Except.ok (vals, stF) →
      ∀ (g n : Nat) (args : List Value) (t2 : Handle),
        GEvent.construct g n args t2 ∈ stF.trace →
        (∃ fld ∈ (impls g).deps, refersToB reg fld f = true) →
        GEvent.construct g n args t2 ∈ st.trace ∨
          ∃ v, lookupCache stF.resolved f = some v := by
  intro fuel
  induction fuel with
  | zero =>
    intro fields caller st vals stF h
    rw [resolveFields] at h
    exact Except.noConfusion h
  | succ fuel ih =>
    intro fields caller st vals stF h g n args t2 hmemE hdeps
    cases fields with
    | nil =>
      rw [resolveFields] at h
      rcases h with ⟨⟩
      exact Or.inl hmemE
    | cons fld0 rest =>
      obtain ⟨tagName, fentry, hft, hreg, hexp, hbr⟩ := resolveFields_cons_inv h
      rcases hbr with ⟨v, vs, hsub, hl, hrest, hvals⟩ |
        ⟨depVals, st1, vs, hmiss, hrec, hrest, hvals⟩
      · exact ih rest caller st vs stF hrest g n args t2 hmemE hdeps
      · rcases ih rest caller _ vs stF hrest g n args t2 hmemE hdeps with hin2 | hsome
        · rw [constructStep_trace] at hin2
          rcases List.mem_append.mp hin2 with hin1 | hnew
          · -- the event comes from the nested resolution (or from before it)
            rcases ih (impls fentry.fid).deps (tagName ++ ".Construct") st depVals st1
              hrec g n args t2 hin1 hdeps with hin0 | ⟨v1, hv1⟩
            · exact Or.inl hin0
            · obtain ⟨v2, hv2⟩ := constructStep_lookup_isSome t depVals st1 v1 hv1
              exact Or.inr ⟨v2, (resolveFields_cached_stable hcoh fuel rest caller _
                vs stF v2 hrest hv2).1⟩
          · -- the event is this step's own construct: its deps reference f
            injection List.mem_singleton.mp hnew with hg hn hargs ht2
            subst hg
            obtain ⟨v1, hv1⟩ := resolveFields_ref_cached hcoh fuel (impls fentry.fid).deps
              (tagName ++ ".Construct") st depVals st1 hrec hdeps
            obtain ⟨v2, hv2⟩ := constructStep_lookup_isSome t depVals st1 v1 hv1
            exact Or.inr ⟨v2, (resolveFields_cached_stable hcoh fuel rest caller _
              vs stF v2 hrest hv2).1⟩
        · exact Or.inr hsome

/-- C1: a fixture registered with `PerSubtest` (ScopeSubTest) scope that is
referenced within one test-case resolution — directly in the test's own
dependency shape, or only through nested fixture dependency shapes — has its
`Construct` invoked exactly once and exactly one cleanup action appended, and
every reference shares the single cached value: every field of the test's
shape referencing it receives that value, and every `Construct` call of any
fixture (at any nesting depth) whose dependency shape references it receives
that value at the referencing position — under any registered name bound to
the same instance, since the cache is keyed by instance identity.  The
hypotheses say that every name bound to the instance is subtest-scoped and
that the registry's dependency graph is acyclic (the spec's own termination
assumption). -/
theorem subtest_fixture_constructed_once
    {reg : Registry} {impls : FixtureId → FixtureImpl} {rank : FixtureId → Nat}
    {f : FixtureId} {t : Handle} {fuel : Nat} {fields : List Field} {caller : String}
    {w : World} {vals : List Value} {stF : RState}
    (hr : ranked reg impls rank) (hcoh : scopeCoherent reg f)
    (hok : resolveFields reg impls t fuel fields caller (initState w) = Except.ok (vals, stF))
    (href : (∃ fld ∈ fields, refersToB reg fld f = true) ∨
      (∃ (g n : Nat) (args : List Value) (t2 : Handle),
        GEvent.construct g n args t2 ∈ stF.trace ∧
        ∃ fld ∈ (impls g).deps, refersToB reg fld f = true)) :
    cCount f stF.trace = 1 ∧
    clCount f stF.cleanUpCbs = 1 ∧
    ∃ v, lookupCache stF.resolved f = some v ∧
      (∀ (i : Nat) (hi : i < fields.length) (hv : i < vals.length),
        refersToB reg (fields.get ⟨i, hi⟩) f = true → vals.get ⟨i, hv⟩ = v) ∧
      (∀ (g n : Nat) (args : List Value) (t2 : Handle),
        GEvent.construct g n args t2 ∈ stF.trace →
        ∀ (i : Nat) (hi : i < (impls g).deps.length) (ha : i < args.length),
          refersToB reg ((impls g).deps.get ⟨i, hi⟩) f = true →
          args.get ⟨i, ha⟩ = v) := by
  have hnone : lookupCache (initState w).resolved f = none := rfl
  have hsome0 : ∃ v0, lookupCache stF.resolved f = some v0 := by
    rcases href with hdir | ⟨g, n, args, t2, hmemE, hdeps⟩
    · exact resolveFields_ref_cached hcoh fuel fields caller (initState w) vals stF hok hdir
    · rcases resolveFields_nested_ref_cached hcoh fuel fields caller (initState w) vals stF
        hok g n args t2 hmemE hdeps with hin | hv
      · exact absurd hin (List.not_mem_nil _)
      · exact hv
  obtain ⟨v0, hv0⟩ := hsome0
  rcases resolveFields_first_construct hr hcoh fuel fields caller (initState w) vals stF hok
      hnone with ⟨hcn, _⟩ | ⟨nv, hsome, hcount⟩
  · rw [hcn] at hv0
    exact Option.noConfusion hv0
  have hc0 : cCount f (initState w).trace = 0 := rfl
  rw [hc0] at hcount
  obtain ⟨hlen, dt, dc, htr, hcl, hkeys, _, _⟩ :=
    resolveFields_evo fuel fields caller (initState w) vals stF hok
  have hdt : stF.trace = dt := by simpa [initState] using htr
  have hdc : stF.cleanUpCbs = dc := by simpa [initState] using hcl
  have hAinit : argsOk reg impls f (initState w).resolved (initState w).trace := by
    intro g n args t2 hmemE
    exact absurd hmemE (List.not_mem_nil _)
  have hA := resolveFields_argsOk hr hcoh fuel fields caller (initState w) vals stF hok hAinit
  refine ⟨by omega, ?_, (f, nv), hsome, ?_, ?_⟩
  · have hck : clCount f stF.cleanUpCbs = cCount f stF.trace := by
      rw [clCount, cCount, hdt, hdc, hkeys]
    rw [hck]
    omega
  · intro i hi hv hrf
    have hval := resolveFields_subtest_values hcoh fuel fields caller (initState w)
      vals stF hok i hi hv hrf
    rw [hsome] at hval
    exact (Option.some.inj hval).symm
  · intro g n args t2 hmemE i hi ha hrf
    have hval := hA g n args t2 hmemE i hi ha hrf
    rw [hsome] at hval
    exact (Option.some.inj hval).symm

/-- Witness for C1 in the nested-only sharing configuration: the test shape
references only RepoA and RepoB; the subtest-scoped instance 0 is reached
exclusively through their dependency shapes, under two different registered
names, yet is constructed once, cleaned up once, and both RepoA's and RepoB's
`Construct` receive the single cached value. -/
theorem subtest_fixture_constructed_once_witness :
    resolveFields wRegD wImplsD Handle.group 5 wFieldsD "SubTestW" (initState [])
      = Except.ok (wValsD, wStD) ∧
    (cCount 0 wStD.trace = 1 ∧
      clCount 0 wStD.cleanUpCbs = 1 ∧
      ∃ v, lookupCache wStD.resolved 0 = some v ∧
        (∀ (i : Nat) (hi : i < wFieldsD.length) (hv : i < wValsD.length),
          refersToB wRegD (wFieldsD.get ⟨i, hi⟩) 0 = true → wValsD.get ⟨i, hv⟩ = v) ∧
        (∀ (g n : Nat) (args : List Value) (t2 : Handle),
          GEvent.construct g n args t2 ∈ wStD.trace →
          ∀ (i : Nat) (hi : i < (wImplsD g).deps.length) (ha : i < args.length),
            refersToB wRegD ((wImplsD g).deps.get ⟨i, hi⟩) 0 = true →
            args.get ⟨i, ha⟩ = v)) :=
  ⟨by rfl,
    @subtest_fixture_constructed_once wRegD wImplsD wRankD 0 Handle.group 5 wFieldsD
      "SubTestW" [] wValsD wStD (by decide) (by decide) (by rfl)
      (Or.inr ⟨1, 0, [(0, 0)], Handle.group, by decide,
        ⟨{ name := "T", tag := some "Tx", exported := true }, by decide, by decide⟩⟩)⟩

/-- C2: a fixture registered with `PerCall` (ScopeCall) scope referenced N
times in one dependency shape has its `Construct` invoked N times during one
resolution; the N references receive, in declaration order, the values of the
N consecutive invocations (hence pairwise distinct values), and N distinct
cleanup actions are appended in that same order.  The hypotheses say every
name bound to the instance is call-scoped and no fixture's own dependency
shape references it (so the N counted references are exactly the shape's). -/
theorem call_fixture_fresh_per_reference
    {reg : Registry} {impls : FixtureId → FixtureImpl}
    {f : FixtureId} {t : Handle} {fuel : Nat} {fields : List Field} {caller : String}
    {w : World} {vals : List Value} {stF : RState}
    (hcall : scopeCallCoherent reg f) (hnn : notNested reg impls f)
    (hok : resolveFields reg impls t fuel fields caller (initState w) = Except.ok (vals, stF)) :
    cCount f stF.trace = (fields.filter (fun fld => refersToB reg fld f)).length ∧
    ((fields.zip vals).filter (fun p => refersToB reg p.1 f)).map Prod.snd
      = (List.range (fields.filter (fun fld => refersToB reg fld f)).length).map
          (fun k => (f, worldCount w f + k)) ∧
    (((fields.zip vals).filter (fun p => refersToB reg p.1 f)).map Prod.snd).Nodup ∧
    stF.cleanUpCbs.filter (fun c => c.1 == f)
      = (List.range (fields.filter (fun fld => refersToB reg fld f)).length).map
          (fun k => (f, worldCount w f + k, t)) ∧
    (stF.cleanUpCbs.filter (fun c => c.1 == f)).Nodup := by
  obtain ⟨hw, hn, hzip, hcl⟩ :=
    resolveFields_call_fresh hcall hnn fuel fields caller (initState w) vals stF hok
  have hc0 : cCount f (initState w).trace = 0 := rfl
  have hw0 : worldCount (initState w).world f = worldCount w f := rfl
  have hcl0 : (initState w).cleanUpCbs.filter (fun c => c.1 == f) = [] := rfl
  rw [hc0, Nat.zero_add] at hn
  rw [hw0] at hzip hcl
  rw [hcl0, List.nil_append] at hcl
  have hinj1 : Function.Injective (fun k => ((f, worldCount w f + k) : Value)) := by
    intro k1 k2 hk
    simp only [Prod.mk.injEq, true_and] at hk
    omega
  have hinj2 : Function.Injective (fun k => ((f, worldCount w f + k, t) : Cleanup)) := by
    intro k1 k2 hk
    simp only [Prod.mk.injEq, true_and, and_true] at hk
    omega
  refine ⟨hn, hzip, ?_, hcl, ?_⟩
  · rw [hzip]
    exact List.Nodup.map hinj1 (List.nodup_range _)
  · rw [hcl]
    exact List.Nodup.map hinj2 (List.nodup_range _)

/-- Witness for C2: the concrete resolution constructs the Uid instance three
times, once per reference, in declaration order, with three cleanups. -/
theorem call_fixture_fresh_per_reference_witness :
    resolveFields wRegB wImpls0 Handle.group 5 wFieldsB "SubTestW2" (initState [])
      = Except.ok (wValsB, wStB) ∧
    (cCount 1 wStB.trace = (wFieldsB.filter (fun fld => refersToB wRegB fld 1)).length ∧
      ((wFieldsB.zip wValsB).filter (fun p => refersToB wRegB p.1 1)).map Prod.snd
        = (List.range (wFieldsB.filter (fun fld => refersToB wRegB fld 1)).length).map
            (fun k => (1, worldCount [] 1 + k)) ∧
      (((wFieldsB.zip wValsB).filter (fun p => refersToB wRegB p.1 1)).map Prod.snd).Nodup ∧
      wStB.cleanUpCbs.filter (fun c => c.1 == 1)
        = (List.range (wFieldsB.filter (fun fld => refersToB wRegB fld 1)).length).map
            (fun k => (1, worldCount [] 1 + k, Handle.group)) ∧
      (wStB.cleanUpCbs.filter (fun c => c.1 == 1)).Nodup) :=
  ⟨by rfl,
    @call_fixture_fresh_per_reference wRegB wImpls0 1 Handle.group 5 wFieldsB
      "SubTestW2" [] wValsB wStB (by decide) (by decide) (by rfl)⟩

/-- C8: when a shape's first field references fixture A (not served from the
cache) and A's own dependency shape starts with a reference to fixture B (not
served from the cache either), resolution first recursively constructs B,
then invokes A's `Construct` with B's resolved value as the first entry of
its dependency struct, and appends B's cleanup action before A's: in the
final trace B's `Construct` precedes A's, and in the final cleanup list —
which `RunSubTests` executes front to back — B's entry precedes A's, giving
first-constructed-first-destroyed order. -/
theorem nested_dependency_constructed_first
    {reg : Registry} {impls : FixtureId → FixtureImpl} {t : Handle} {fuel : Nat}
    {fldA : Field} {rest : List Field} {caller : String} {st : RState}
    {vals : List Value} {stF : RState}
    {nA : String} {eA : FixtureEntry} {fldB : Field} {deps2 : List Field}
    {nB : String} {eB : FixtureEntry}
    (hftA : fldA.tag = some nA) (hregA : lookupReg reg nA = some eA)
    (hmissA : eA.scope = FixtureScope.subtest → lookupCache st.resolved eA.fid = none)
    (hdeps : (impls eA.fid).deps = fldB :: deps2)
    (hftB : fldB.tag = some nB) (hregB : lookupReg reg nB = some eB)
    (hmissB : eB.scope = FixtureScope.subtest → lookupCache st.resolved eB.fid = none)
    (hok : resolveFields reg impls t fuel (fldA :: rest) caller st = Except.ok (vals, stF)) :
    ∃ (nb na : Nat) (argsB argsA : List Value) (l1 l2 l3 : List GEvent)
      (c1 c2 c3 : List Cleanup),
      stF.trace = st.trace ++ l1 ++ [GEvent.construct eB.fid nb argsB t] ++ l2
        ++ [GEvent.construct eA.fid na argsA t] ++ l3 ∧
      stF.cleanUpCbs = st.cleanUpCbs ++ c1 ++ [(eB.fid, nb, t)] ++ c2
        ++ [(eA.fid, na, t)] ++ c3 ∧
      argsA.head? = some (eB.fid, nb) := by
  cases fuel with
  | zero =>
    rw [resolveFields] at hok
    exact Except.noConfusion hok
  | succ fuel =>
    obtain ⟨tagName, fentry, hft, hreg, hexp, hbr⟩ := resolveFields_cons_inv hok
    have htn : tagName = nA := by
      rw [hftA] at hft
      exact (Option.some.inj hft).symm
    have hfe : fentry = eA := by
      rw [htn, hregA] at hreg
      exact (Option.some.inj hreg).symm
    rw [htn, hfe] at hbr
    rcases hbr with ⟨v, vs, hsub, hl, hrest, hvals⟩ |
      ⟨depVals, st1, vs, hmiss, hrec, hrest, hvals⟩
    · rw [hmissA hsub] at hl
      exact Option.noConfusion hl
    · rw [hdeps] at hrec
      cases fuel with
      | zero =>
        rw [resolveFields] at hrec
        exact Except.noConfusion hrec
      | succ fuel2 =>
        obtain ⟨tagB, feB, hftB2, hregB2, hexpB, hbrB⟩ := resolveFields_cons_inv hrec
        have htnB : tagB = nB := by
          rw [hftB] at hftB2
          exact (Option.some.inj hftB2).symm
        have hfeB : feB = eB := by
          rw [htnB, hregB] at hregB2
          exact (Option.some.inj hregB2).symm
        rw [htnB, hfeB] at hbrB
        rcases hbrB with ⟨vB, vsB, hsubB, hlB, hrestB, hvalsB⟩ |
          ⟨depValsB, stB1, vsB, hmissB2, hrecB, hrestB, hvalsB⟩
        · rw [hmissB hsubB] at hlB
          exact Option.noConfusion hlB
        · -- B constructed inside A's dependency resolution
          obtain ⟨_, dtB, dcB, htrB, hclB, _, _, _⟩ :=
            resolveFields_evo fuel2 (impls eB.fid).deps (nB ++ ".Construct") st
              depValsB stB1 hrecB
          obtain ⟨_, dt2, dc2, htr2, hcl2, _, _, _⟩ :=
            resolveFields_evo fuel2 deps2 (nA ++ ".Construct")
              (constructStep t eB.scope eB.fid depValsB stB1) vsB st1 hrestB
          obtain ⟨_, dt3, dc3, htr3, hcl3, _, _, _⟩ :=
            resolveFields_evo (fuel2 + 1) rest caller
              (constructStep t eA.scope eA.fid depVals st1) vs stF hrest
          refine ⟨worldCount stB1.world eB.fid, worldCount st1.world eA.fid,
            depValsB, depVals, dtB, dt2, dt3, dcB, dc2, dc3, ?_, ?_, ?_⟩
          · rw [htr3, constructStep_trace, htr2, constructStep_trace, htrB]
          · rw [hcl3, constructStep_clean, hcl2, constructStep_clean, hclB]
          · rw [hvalsB]
            rfl

/-- Witness for C8: resolving the MockUser reference first constructs UserId,
then MockUser with UserId's value, and UserId's cleanup precedes MockUser's. -/
theorem nested_dependency_constructed_first_witness :
    resolveFields wRegC wImplsC Handle.group 5 wFieldsC "SubTestW3" (initState [])
      = Except.ok ([(2, 0)], wStC) ∧
    ∃ (nb na : Nat) (argsB argsA : List Value) (l1 l2 l3 : List GEvent)
      (c1 c2 c3 : List Cleanup),
      wStC.trace = (initState []).trace ++ l1 ++ [GEvent.construct 1 nb argsB Handle.group]
        ++ l2 ++ [GEvent.construct 2 na argsA Handle.group] ++ l3 ∧
      wStC.cleanUpCbs = (initState []).cleanUpCbs ++ c1 ++ [(1, nb, Handle.group)] ++ c2
        ++ [(2, na, Handle.group)] ++ c3 ∧
      argsA.head? = some (1, nb) :=
  ⟨by rfl,
    @nested_dependency_constructed_first wRegC wImplsC Handle.group 5
      { name := "User", tag := some "MockUser", exported := true } [] "SubTestW3"
      (initState []) [(2, 0)] wStC
      "MockUser" { scope := FixtureScope.call, fid := 2 }
      { name := "UserId", tag := some "UserId", exported := true } []
      "UserId" { scope := FixtureScope.call, fid := 1 }
      rfl (by rfl) (by decide) (by rfl) rfl (by rfl) (by decide) (by rfl)⟩

/-! Lemmas about the orchestrator. -/

theorem subUnit_no_setup (n : String) (b : Bool) (cl : List Cleanup) :
    GEvent.setup ∉ subUnit n b cl := by
  simp [subUnit]

theorem subUnit_no_teardown (n : String) (b : Bool) (cl : List Cleanup) :
    GEvent.teardown ∉ subUnit n b cl := by
  simp [subUnit]

theorem subUnit_not_fatal (n : String) (b : Bool) (cl : List Cleanup) :
    ∀ x ∈ subUnit n b cl, isFatalEv x = false := by
  intro x hx
  simp only [subUnit, List.mem_append, List.mem_cons, List.mem_singleton, List.mem_map,
    List.not_mem_nil, or_false] at hx
  rcases hx with ((rfl | rfl | rfl) | ⟨c, _, rfl⟩) | (rfl | rfl) <;> rfl

theorem subStarts_subUnit (n : String) (b : Bool) (cl : List Cleanup) :
    subStarts (subUnit n b cl) = [n] := by
  simp [subUnit, subStarts, subStartName, List.filterMap_append, List.filterMap_map,
    Function.comp]

theorem subStarts_of_constructs {tr : List GEvent} {t : Handle}
    (h : ∀ e ∈ tr, ∃ g n args, e = GEvent.construct g n args t) :
    subStarts tr = [] := by
  rw [subStarts, List.filterMap_eq_nil_iff]
  intro e he
  obtain ⟨g, n, args, rfl⟩ := h e he
  rfl

theorem constructs_no_setup {tr : List GEvent} {t : Handle}
    (h : ∀ e ∈ tr, ∃ g n args, e = GEvent.construct g n args t) :
    GEvent.setup ∉ tr := by
  intro hmem
  obtain ⟨g, n, args, heq⟩ := h _ hmem
  exact GEvent.noConfusion heq

theorem constructs_no_teardown {tr : List GEvent} {t : Handle}
    (h : ∀ e ∈ tr, ∃ g n args, e = GEvent.construct g n args t) :
    GEvent.teardown ∉ tr := by
  intro hmem
  obtain ⟨g, n, args, heq⟩ := h _ hmem
  exact GEvent.noConfusion heq

theorem constructs_not_fatal {tr : List GEvent} {t : Handle}
    (h : ∀ e ∈ tr, ∃ g n args, e = GEvent.construct g n args t) :
    ∀ x ∈ tr, isFatalEv x = false := by
  intro x hx
  obtain ⟨g, n, args, rfl⟩ := h x hx
  rfl

/-- Characterization of a successful `runMethod` on a method declaring a
fixtures struct: the shape is resolved against the group handle from a fresh
resolver state, and the events are the resolution's `Construct` calls
followed by the bracketed sub-unit. -/
theorem runMethod_fixtures_ok {reg : Registry} {impls : FixtureId → FixtureImpl}
    {fuel : Nat} {m : Method} {b : Bool} {w : World} {fields : List Field}
    {evs : List GEvent} {w1 : World}
    (hp : m.params = [GoParam.testingT, GoParam.structOf fields])
    (hok : runMethod reg impls fuel m b w = Except.ok (evs, w1)) :
    ∃ (vals : List Value) (stR : RState),
      resolveFields reg impls Handle.group fuel fields m.name (initState w)
        = Except.ok (vals, stR) ∧
      evs = stR.trace ++ subUnit (trimmed m.name) b stR.cleanUpCbs ∧
      w1 = stR.world := by
  rcases hres : resolveFields reg impls Handle.group fuel fields m.name (initState w) with
    ⟨e, stE⟩ | ⟨vals, stR⟩
  · rw [runMethod, hp] at hok
    simp only [resolve, hres] at hok
    exact Except.noConfusion hok
  · rw [runMethod, hp] at hok
    simp only [resolve, hres, Except.ok.injEq, Prod.mk.injEq] at hok
    exact ⟨vals, stR, rfl, hok.1.symm, hok.2.symm⟩

/-- Every event list of a successful `runMethod` holds no `Setup`, no
`Teardown`, no fatal report, and starts exactly one sub-unit, named by the
method name with the prefix trimmed. -/
theorem runMethod_ok_events {reg : Registry} {impls : FixtureId → FixtureImpl}
    {fuel : Nat} {m : Method} {b : Bool} {w : World} {evs : List GEvent} {w1 : World}
    (hok : runMethod reg impls fuel m b w = Except.ok (evs, w1)) :
    GEvent.setup ∉ evs ∧ GEvent.teardown ∉ evs ∧ (∀ x ∈ evs, isFatalEv x = false) ∧
    subStarts evs = [trimmed m.name] := by
  rcases hmp : m.params with _ | ⟨p1, ps⟩
  · rw [runMethod, hmp] at hok
    exact Except.noConfusion hok
  rcases p1 with _ | fields0 | d
  · -- first parameter is *testing.T
    rcases ps with _ | ⟨p2, ps2⟩
    · rw [runMethod, hmp] at hok
      rcases hok with ⟨⟩
      exact ⟨subUnit_no_setup _ _ _, subUnit_no_teardown _ _ _, subUnit_not_fatal _ _ _,
        subStarts_subUnit _ _ _⟩
    rcases ps2 with _ | ⟨p3, ps3⟩
    · rcases p2 with _ | fields | d
      · rw [runMethod, hmp] at hok
        simp only [resolve] at hok
        exact Except.noConfusion hok
      · rcases hres : resolveFields reg impls Handle.group fuel fields m.name (initState w)
          with ⟨e, stE⟩ | ⟨vals, stR⟩
        · rw [runMethod, hmp] at hok
          simp only [resolve, hres] at hok
          exact Except.noConfusion hok
        · rw [runMethod, hmp] at hok
          simp only [resolve, hres, Except.ok.injEq, Prod.mk.injEq] at hok
          obtain ⟨hevs, _⟩ := hok
          subst hevs
          obtain ⟨_, dt, dc, htr, hcl, _, hdt, _⟩ :=
            resolveFields_evo fuel fields m.name (initState w) vals stR hres
          have htr2 : stR.trace = dt := by simpa [initState] using htr
          rw [htr2]
          refine ⟨?_, ?_, ?_, ?_⟩
          · intro hmem
            rcases List.mem_append.mp hmem with h1 | h2
            · exact constructs_no_setup hdt h1
            · exact subUnit_no_setup _ _ _ h2
          · intro hmem
            rcases List.mem_append.mp hmem with h1 | h2
            · exact constructs_no_teardown hdt h1
            · exact subUnit_no_teardown _ _ _ h2
          · intro x hx
            rcases List.mem_append.mp hx with h1 | h2
            · exact constructs_not_fatal hdt x h1
            · exact subUnit_not_fatal _ _ _ x h2
          · rw [subStarts, List.filterMap_append, ← subStarts, ← subStarts,
              subStarts_of_constructs hdt, subStarts_subUnit, List.nil_append]
      · rw [runMethod, hmp] at hok
        simp only [resolve] at hok
        exact Except.noConfusion hok
    · rw [runMethod, hmp] at hok
      exact Except.noConfusion hok
  · rw [runMethod, hmp] at hok
    exact Except.noConfusion hok
  · rw [runMethod, hmp] at hok
    exact Except.noConfusion hok

/-- A failed `runMethod` always ends in a fatal report. -/
theorem runMethod_error_fatal {reg : Registry} {impls : FixtureId → FixtureImpl}
    {fuel : Nat} {m : Method} {b : Bool} {w : World} {evsE : List GEvent}
    (h : runMethod reg impls fuel m b w = Except.error evsE) :
    ∃ e, GEvent.fatal e ∈ evsE := by
  rcases hmp : m.params with _ | ⟨p1, ps⟩
  · rw [runMethod, hmp] at h
    rcases h with ⟨⟩
    exact ⟨GError.missingTestingT m.name, List.mem_singleton.mpr rfl⟩
  rcases p1 with _ | fields0 | d
  · rcases ps with _ | ⟨p2, ps2⟩
    · rw [runMethod, hmp] at h
      exact Except.noConfusion h
    rcases ps2 with _ | ⟨p3, ps3⟩
    · rcases p2 with _ | fields | d
      · rw [runMethod, hmp] at h
        simp only [resolve] at h
        rcases h with ⟨⟩
        exact ⟨GError.invalidFixturesKind m.name, by simp [initState]⟩
      · rcases hres : resolveFields reg impls Handle.group fuel fields m.name (initState w)
          with ⟨e, stE⟩ | ⟨vals, stR⟩
        · rw [runMethod, hmp] at h
          simp only [resolve, hres, Except.error.injEq] at h
          exact ⟨e, by rw [← h]; exact List.mem_append_right _ (List.mem_singleton.mpr rfl)⟩
        · rw [runMethod, hmp] at h
          simp only [resolve, hres] at h
          exact Except.noConfusion h
      · rw [runMethod, hmp] at h
        simp only [resolve] at h
        rcases h with ⟨⟩
        exact ⟨GError.invalidFixturesKind m.name, by simp [initState]⟩
    · rw [runMethod, hmp] at h
      rcases h with ⟨⟩
      exact ⟨_, List.mem_singleton.mpr rfl⟩
  · rw [runMethod, hmp] at h
    rcases h with ⟨⟩
    exact ⟨GError.badFirstParam m.name, List.mem_singleton.mpr rfl⟩
  · rw [runMethod, hmp] at h
    rcases h with ⟨⟩
    exact ⟨GError.badFirstParam m.name, List.mem_singleton.mpr rfl⟩

/-- Structure of a completed (fatal-free) discovery loop: no `Setup` event,
exactly one final `Teardown` event, and the started sub-units are exactly the
prefix-matching methods, in order, under their trimmed names. -/
theorem runLoop_complete {reg : Registry} {impls : FixtureId → FixtureImpl}
    {fuel : Nat} {outcomes : String → Bool} :
    ∀ (ms : List Method) (w : World),
      (∀ x ∈ runLoop reg impls fuel outcomes ms w, isFatalEv x = false) →
      GEvent.setup ∉ runLoop reg impls fuel outcomes ms w ∧
      (∃ pre, runLoop reg impls fuel outcomes ms w = pre ++ [GEvent.teardown] ∧
        GEvent.teardown ∉ pre) ∧
      subStarts (runLoop reg impls fuel outcomes ms w)
        = (ms.filter (fun m => strHasPre subTestMarker m.name)).map
            (fun m => trimmed m.name) := by
  intro ms
  induction ms with
  | nil =>
    intro w _
    refine ⟨by simp [runLoop], ⟨[], by simp [runLoop], by simp⟩, ?_⟩
    simp [runLoop, subStarts, subStartName]
  | cons m rest ih =>
    intro w hnf
    by_cases hpre : strHasPre subTestMarker m.name
    · rcases hrm : runMethod reg impls fuel m (outcomes m.name) w with evsE | ⟨evs, w1⟩
      · have hloop : runLoop reg impls fuel outcomes (m :: rest) w = evsE := by
          rw [runLoop, if_pos hpre, hrm]
        rw [hloop] at hnf
        obtain ⟨e, hmem⟩ := runMethod_error_fatal hrm
        have := hnf (GEvent.fatal e) hmem
        simp [isFatalEv] at this
      · have hloop : runLoop reg impls fuel outcomes (m :: rest) w
            = evs ++ runLoop reg impls fuel outcomes rest w1 := by
          rw [runLoop, if_pos hpre, hrm]
        rw [hloop] at hnf ⊢
        have hnfTail : ∀ x ∈ runLoop reg impls fuel outcomes rest w1, isFatalEv x = false :=
          fun x hx => hnf x (List.mem_append_right _ hx)
        obtain ⟨hset, ⟨pre, hpreEq, hpreNo⟩, hsub⟩ := ih w1 hnfTail
        obtain ⟨hset2, htd2, _, hsub2⟩ := runMethod_ok_events hrm
        refine ⟨?_, ⟨evs ++ pre, ?_, ?_⟩, ?_⟩
        · intro hmem
          rcases List.mem_append.mp hmem with h1 | h2
          · exact hset2 h1
          · exact hset h2
        · rw [hpreEq, List.append_assoc]
        · intro hmem
          rcases List.mem_append.mp hmem with h1 | h2
          · exact htd2 h1
          · exact hpreNo h2
        · rw [subStarts, List.filterMap_append, ← subStarts, ← subStarts, hsub2, hsub,
            List.filter_cons, if_pos hpre, List.map_cons]
          rfl
    · have hloop : runLoop reg impls fuel outcomes (m :: rest) w
          = runLoop reg impls fuel outcomes rest w := by
        rw [runLoop, if_neg hpre]
      rw [hloop] at hnf ⊢
      obtain ⟨hset, hpre2, hsub⟩ := ih w hnf
      refine ⟨hset, hpre2, ?_⟩
      rw [hsub, List.filter_cons, if_neg (by simpa using hpre)]

/-! Claim theorems about the orchestrator. -/

/-- C5: for every test case declaring a fixtures struct, the accumulated
cleanup actions run after the case body and before `AfterEach`, in the order
the fixtures were first constructed (`cleanKeys cl = constructKeys cEvs`
pairs the i-th destruct with the i-th construct), and this holds for both
values of the body outcome `b`, so in particular when the body fails its
assertions.  (Assertion failure is the non-fatal, testify-assert style
failure this repository's own tests use: the body marks the test failed and
returns.) -/
theorem cleanup_after_body_before_afterEach
    {reg : Registry} {impls : FixtureId → FixtureImpl} {fuel : Nat} {m : Method}
    {b : Bool} {w : World} {fields : List Field} {evs : List GEvent} {w1 : World}
    (hp : m.params = [GoParam.testingT, GoParam.structOf fields])
    (hok : runMethod reg impls fuel m b w = Except.ok (evs, w1)) :
    ∃ (cEvs : List GEvent) (cl : List Cleanup),
      evs = cEvs
        ++ [GEvent.subStart (trimmed m.name), GEvent.beforeEach (trimmed m.name),
            GEvent.body (trimmed m.name) b]
        ++ cl.map (fun c => GEvent.destruct c.1 c.2.1 c.2.2)
        ++ [GEvent.afterEach (trimmed m.name), GEvent.subEnd (trimmed m.name)] ∧
      cleanKeys cl = constructKeys cEvs := by
  obtain ⟨vals, stR, hres, hevs, _⟩ := runMethod_fixtures_ok hp hok
  obtain ⟨_, dt, dc, htr, hcl, hkeys, _, _⟩ :=
    resolveFields_evo fuel fields m.name (initState w) vals stR hres
  have htr2 : stR.trace = dt := by simpa [initState] using htr
  have hcl2 : stR.cleanUpCbs = dc := by simpa [initState] using hcl
  refine ⟨dt, dc, ?_, hkeys⟩
  rw [hevs, htr2, hcl2, subUnit]
  simp [List.append_assoc]

/-- Witness for C5: a failing body (outcome false) still gets its destruct
after the body and before afterEach, matching the single construct. -/
theorem cleanup_after_body_before_afterEach_witness :
    runMethod wRegB wImpls0 5 wMethodFix false []
      = Except.ok ([GEvent.construct 1 0 [] Handle.group,
          GEvent.subStart "Fix", GEvent.beforeEach "Fix", GEvent.body "Fix" false,
          GEvent.destruct 1 0 Handle.group, GEvent.afterEach "Fix", GEvent.subEnd "Fix"],
          [(1, 1)]) ∧
    ∃ (cEvs : List GEvent) (cl : List Cleanup),
      [GEvent.construct 1 0 [] Handle.group,
        GEvent.subStart "Fix", GEvent.beforeEach "Fix", GEvent.body "Fix" false,
        GEvent.destruct 1 0 Handle.group, GEvent.afterEach "Fix", GEvent.subEnd "Fix"]
        = cEvs
          ++ [GEvent.subStart (trimmed wMethodFix.name),
              GEvent.beforeEach (trimmed wMethodFix.name),
              GEvent.body (trimmed wMethodFix.name) false]
          ++ cl.map (fun c => GEvent.destruct c.1 c.2.1 c.2.2)
          ++ [GEvent.afterEach (trimmed wMethodFix.name),
              GEvent.subEnd (trimmed wMethodFix.name)] ∧
        cleanKeys cl = constructKeys cEvs :=
  ⟨by rfl,
    @cleanup_after_body_before_afterEach wRegB wImpls0 5 wMethodFix false []
      [{ name := "U1", tag := some "Uid", exported := true }]
      [GEvent.construct 1 0 [] Handle.group,
        GEvent.subStart "Fix", GEvent.beforeEach "Fix", GEvent.body "Fix" false,
        GEvent.destruct 1 0 Handle.group, GEvent.afterEach "Fix", GEvent.subEnd "Fix"]
      [(1, 1)] rfl (by rfl)⟩

/-- C10: every fixture construction of a test case happens before the named
sub-unit starts — hence before `BeforeEach` — and receives the group-level
handle, not the sub-unit's own; inside the sub-unit only `BeforeEach`, the
case body, the destruct calls of the cleanup list and `AfterEach` run, and no
`Construct` call occurs there. -/
theorem constructs_before_subunit_on_group_handle
    {reg : Registry} {impls : FixtureId → FixtureImpl} {fuel : Nat} {m : Method}
    {b : Bool} {w : World} {fields : List Field} {evs : List GEvent} {w1 : World}
    (hp : m.params = [GoParam.testingT, GoParam.structOf fields])
    (hok : runMethod reg impls fuel m b w = Except.ok (evs, w1)) :
    ∃ (cEvs : List GEvent) (cl : List Cleanup),
      evs = cEvs ++ subUnit (trimmed m.name) b cl ∧
      (∀ e ∈ cEvs, ∃ gid n args, e = GEvent.construct gid n args Handle.group) ∧
      (∀ c ∈ cl, c.2.2 = Handle.group) ∧
      (∀ (gid n : Nat) (args : List Value) (h2 : Handle),
        GEvent.construct gid n args h2 ∉ subUnit (trimmed m.name) b cl) := by
  obtain ⟨vals, stR, hres, hevs, _⟩ := runMethod_fixtures_ok hp hok
  obtain ⟨_, dt, dc, htr, hcl, _, hdt, hdc⟩ :=
    resolveFields_evo fuel fields m.name (initState w) vals stR hres
  have htr2 : stR.trace = dt := by simpa [initState] using htr
  have hcl2 : stR.cleanUpCbs = dc := by simpa [initState] using hcl
  refine ⟨dt, dc, ?_, hdt, hdc, ?_⟩
  · rw [hevs, htr2, hcl2]
  · intro gid n args h2 hmem
    simp [subUnit] at hmem

/-- Witness for C10: the concrete single-fixture method constructs on the
group handle before the sub-unit and runs no construction inside it. -/
theorem constructs_before_subunit_on_group_handle_witness :
    runMethod wRegB wImpls0 5 wMethodFix true []
      = Except.ok ([GEvent.construct 1 0 [] Handle.group,
          GEvent.subStart "Fix", GEvent.beforeEach "Fix", GEvent.body "Fix" true,
          GEvent.destruct 1 0 Handle.group, GEvent.afterEach "Fix", GEvent.subEnd "Fix"],
          [(1, 1)]) ∧
    ∃ (cEvs : List GEvent) (cl : List Cleanup),
      [GEvent.construct 1 0 [] Handle.group,
        GEvent.subStart "Fix", GEvent.beforeEach "Fix", GEvent.body "Fix" true,
        GEvent.destruct 1 0 Handle.group, GEvent.afterEach "Fix", GEvent.subEnd "Fix"]
        = cEvs ++ subUnit (trimmed wMethodFix.name) true cl ∧
      (∀ e ∈ cEvs, ∃ gid n args, e = GEvent.construct gid n args Handle.group) ∧
      (∀ c ∈ cl, c.2.2 = Handle.group) ∧
      (∀ (gid n : Nat) (args : List Value) (h2 : Handle),
        GEvent.construct gid n args h2 ∉ subUnit (trimmed wMethodFix.name) true cl) :=
  ⟨by rfl,
    @constructs_before_subunit_on_group_handle wRegB wImpls0 5 wMethodFix true []
      [{ name := "U1", tag := some "Uid", exported := true }]
      [GEvent.construct 1 0 [] Handle.group,
        GEvent.subStart "Fix", GEvent.beforeEach "Fix", GEvent.body "Fix" true,
        GEvent.destruct 1 0 Handle.group, GEvent.afterEach "Fix", GEvent.subEnd "Fix"]
      [(1, 1)] rfl (by rfl)⟩

/-- C7: over a run in which no fatal configuration or resolution error
occurs, `Setup` is the first event and happens exactly once, and `Teardown`
is the last event and happens exactly once — for every assignment of pass or
fail outcomes to the test-case bodies, so individual case failures skip
neither. -/
theorem setup_once_teardown_once
    {reg : Registry} {impls : FixtureId → FixtureImpl} {fuel : Nat}
    {g : TestGroup} {w0 : World}
    (hnf : ∀ x ∈ RunSubTests reg impls fuel g w0, isFatalEv x = false) :
    (RunSubTests reg impls fuel g w0).head? = some GEvent.setup ∧
    (RunSubTests reg impls fuel g w0).count GEvent.setup = 1 ∧
    (RunSubTests reg impls fuel g w0).getLast? = some GEvent.teardown ∧
    (RunSubTests reg impls fuel g w0).count GEvent.teardown = 1 := by
  have hnfL : ∀ x ∈ runLoop reg impls fuel g.outcomes g.methods w0, isFatalEv x = false :=
    fun x hx => hnf x (List.mem_cons_of_mem _ hx)
  obtain ⟨hset, ⟨pre, hpreEq, hpreNo⟩, _⟩ := runLoop_complete g.methods w0 hnfL
  rw [RunSubTests] at hnf ⊢
  refine ⟨rfl, ?_, ?_, ?_⟩
  · rw [List.count_cons_self, List.count_eq_zero.mpr hset]
  · rw [hpreEq, ← List.cons_append, List.getLast?_concat]
  · have h0 : (GEvent.setup :: pre).count GEvent.teardown = 0 := by
      rw [List.count_eq_zero]
      intro hmem
      rcases List.mem_cons.mp hmem with heq | hmem2
      · exact GEvent.noConfusion heq
      · exact hpreNo hmem2
    rw [hpreEq, ← List.cons_append, List.count_append, h0]
    simp

/-- Witness for C7: on the concrete group — whose first case fails — the
trace still starts with one `Setup` and ends with one `Teardown`. -/
theorem setup_once_teardown_once_witness :
    (∀ x ∈ RunSubTests wRegB wImpls0 5 wGroupA [], isFatalEv x = false) ∧
    ((RunSubTests wRegB wImpls0 5 wGroupA []).head? = some GEvent.setup ∧
      (RunSubTests wRegB wImpls0 5 wGroupA []).count GEvent.setup = 1 ∧
      (RunSubTests wRegB wImpls0 5 wGroupA []).getLast? = some GEvent.teardown ∧
      (RunSubTests wRegB wImpls0 5 wGroupA []).count GEvent.teardown = 1) :=
  ⟨by decide, setup_once_teardown_once (by decide)⟩

/-- C9: over a fatal-free run, the named sub-units executed are exactly the
methods whose names start with the SubTest marker, in discovery order, each
under the method name with the marker trimmed; methods without the marker
contribute no sub-unit. -/
theorem subtests_discovered_by_marker
    {reg : Registry} {impls : FixtureId → FixtureImpl} {fuel : Nat}
    {g : TestGroup} {w0 : World}
    (hnf : ∀ x ∈ RunSubTests reg impls fuel g w0, isFatalEv x = false) :
    subStarts (RunSubTests reg impls fuel g w0)
      = (g.methods.filter (fun m => strHasPre subTestMarker m.name)).map
          (fun m => trimmed m.name) := by
  have hnfL : ∀ x ∈ runLoop reg impls fuel g.outcomes g.methods w0, isFatalEv x = false :=
    fun x hx => hnf x (List.mem_cons_of_mem _ hx)
  obtain ⟨_, _, hsub⟩ := runLoop_complete g.methods w0 hnfL
  rw [RunSubTests, subStarts, List.filterMap_cons]
  rw [(rfl : subStartName GEvent.setup = none)]
  exact hsub

/-- Witness for C9: the concrete group runs exactly the sub-units A and Fix,
in order, and ignores the Helper method. -/
theorem subtests_discovered_by_marker_witness :
    (∀ x ∈ RunSubTests wRegB wImpls0 5 wGroupA [], isFatalEv x = false) ∧
    subStarts (RunSubTests wRegB wImpls0 5 wGroupA [])
      = (wGroupA.methods.filter (fun m => strHasPre subTestMarker m.name)).map
          (fun m => trimmed m.name) :=
  ⟨by decide, subtests_discovered_by_marker (by decide)⟩

/-- C3 (amended): referencing an unregistered fixture name fails resolution
with the unregistered-fixture error, reported via `t.Fatalf` on the
group-level handle — resolution runs before the sub-unit starts — so it
aborts the entire group run: the trace ends at the fatal report, no sub-unit
(neither the affected case's nor any sibling's) starts, and `Teardown` is
never invoked. -/
theorem unregistered_fixture_aborts_group
    {reg : Registry} {impls : FixtureId → FixtureImpl} {fuel : Nat} {w0 : World}
    {outcomes : String → Bool} {mname fldName tg : String} {exprt : Bool}
    {ms : List Method}
    (hpre : strHasPre subTestMarker mname = true)
    (hlook : lookupReg reg tg = none) :
    RunSubTests reg impls (fuel + 1)
      ⟨taggedMethod mname fldName tg exprt :: ms, outcomes⟩ w0
      = [GEvent.setup, GEvent.fatal (GError.unregisteredFixture mname tg)] ∧
    GEvent.teardown ∉ RunSubTests reg impls (fuel + 1)
      ⟨taggedMethod mname fldName tg exprt :: ms, outcomes⟩ w0 ∧
    ∀ n, GEvent.subStart n ∉ RunSubTests reg impls (fuel + 1)
      ⟨taggedMethod mname fldName tg exprt :: ms, outcomes⟩ w0 := by
  have hres : resolveFields reg impls Handle.group (fuel + 1)
      [⟨fldName, some tg, exprt⟩] mname (initState w0)
      = Except.error (GError.unregisteredFixture mname tg, initState w0) := by
    rw [resolveFields]
    simp [hlook]
  have hrm : runMethod reg impls (fuel + 1) (taggedMethod mname fldName tg exprt)
      (outcomes (taggedMethod mname fldName tg exprt).name) w0
      = Except.error [GEvent.fatal (GError.unregisteredFixture mname tg)] := by
    rw [runMethod]
    simp only [taggedMethod, resolve, hres]
    rfl
  have htrace : RunSubTests reg impls (fuel + 1)
      ⟨taggedMethod mname fldName tg exprt :: ms, outcomes⟩ w0
      = [GEvent.setup, GEvent.fatal (GError.unregisteredFixture mname tg)] := by
    rw [RunSubTests, runLoop]
    rw [if_pos (by simpa [taggedMethod] using hpre), hrm]
  refine ⟨htrace, ?_, ?_⟩
  · rw [htrace]
    simp
  · intro n
    rw [htrace]
    simp

/-- Counterexample for C3 as stated: with the unregistered reference in the
first case, the run aborts at the fatal report — the sibling case SubTestGood
never starts and `Teardown` never runs, contradicting the claim that only the
affected test case is aborted. -/
theorem unregistered_fixture_cex :
    RunSubTests wRegB wImpls0 5 cexGroupC3 []
      = [GEvent.setup, GEvent.fatal (GError.unregisteredFixture "SubTestBroken" "Nope")] ∧
    GEvent.subStart "Good" ∉ RunSubTests wRegB wImpls0 5 cexGroupC3 [] ∧
    GEvent.teardown ∉ RunSubTests wRegB wImpls0 5 cexGroupC3 [] := by
  refine ⟨by rfl, by decide, by decide⟩

/-- Witness for the amended C3 theorem at a concrete group. -/
theorem unregistered_fixture_aborts_group_witness :
    RunSubTests wRegB wImpls0 5
      ⟨taggedMethod "SubTestBroken" "X" "Nope" true
        :: [⟨"SubTestGood", [GoParam.testingT]⟩], fun _ => true⟩ []
      = [GEvent.setup, GEvent.fatal (GError.unregisteredFixture "SubTestBroken" "Nope")] ∧
    GEvent.teardown ∉ RunSubTests wRegB wImpls0 5
      ⟨taggedMethod "SubTestBroken" "X" "Nope" true
        :: [⟨"SubTestGood", [GoParam.testingT]⟩], fun _ => true⟩ [] ∧
    ∀ n, GEvent.subStart n ∉ RunSubTests wRegB wImpls0 5
      ⟨taggedMethod "SubTestBroken" "X" "Nope" true
        :: [⟨"SubTestGood", [GoParam.testingT]⟩], fun _ => true⟩ [] :=
  @unregistered_fixture_aborts_group wRegB wImpls0 4 []
    (fun _ => true) "SubTestBroken" "X" "Nope" true
    [⟨"SubTestGood", [GoParam.testingT]⟩] (by decide) (by rfl)

/-! Claim theorems about registration and contract validation. -/

/-- C6: a second registration under an existing name fails with the
duplicate-name error, and the registry — which Go mutates in place, so a
failed call leaves it untouched — still maps the name to the original entry
with its original scope and instance. -/
theorem duplicate_registration_rejected
    {reg : Registry} {name : String} {f : FixtureVal} {scope : FixtureScope}
    {e : FixtureEntry}
    (h : lookupReg reg name = some e) :
    RegisterFixture reg name f scope
      = Except.error (RegError.duplicateName name e.scope) ∧
    lookupReg (commitReg (RegisterFixture reg name f scope) reg) name = some e := by
  have hreg : RegisterFixture reg name f scope
      = Except.error (RegError.duplicateName name e.scope) := by
    rw [RegisterFixture, h]
  refine ⟨hreg, ?_⟩
  rw [hreg]
  exact h

/-- Witness for C6: re-registering the name Uid (held by call-scoped instance
1) fails and the original entry survives. -/
theorem duplicate_registration_rejected_witness :
    RegisterFixture wRegB "Uid" ⟨9, wRTypeOk⟩ FixtureScope.subtest
      = Except.error (RegError.duplicateName "Uid" FixtureScope.call) ∧
    lookupReg
      (commitReg (RegisterFixture wRegB "Uid" ⟨9, wRTypeOk⟩ FixtureScope.subtest) wRegB)
      "Uid" = some { scope := FixtureScope.call, fid := 1 } :=
  @duplicate_registration_rejected wRegB "Uid" ⟨9, wRTypeOk⟩ FixtureScope.subtest
    ⟨FixtureScope.call, 1⟩ (by rfl)

/-- Counterexample for C4 as stated: a Destruct with exactly the required
parameters but one output parameter passes `validateFixtureDestructMethod`
and the whole registration succeeds — the validator never inspects
`Destruct`'s outputs, so a non-empty return is NOT rejected. -/
theorem destruct_return_not_rejected_cex :
    badDestructMT.outs.length = 1 ∧
    validateFixtureDestructMethod badRT = Except.ok () ∧
    RegisterFixture [] "Bad" ⟨7, badRT⟩ FixtureScope.call
      = Except.ok [("Bad", ⟨FixtureScope.call, 7⟩)] :=
  ⟨rfl, rfl, rfl⟩

/-- C4 (amended): `validateFixtureDestructMethod` accepts a candidate exactly
when the Destruct method exists, takes exactly (receiver, *testing.T,
interface \x7b\x7d) — so a missing method, wrong arity or wrong parameter
type is rejected with the invalid-contract error — but the method's return
values are never inspected: a non-empty return passes. -/
theorem validate_destruct_characterization (rt : ReflectType) :
    validateFixtureDestructMethod rt = Except.ok () ↔
      ∃ m, rt.destructM = some m ∧ m.ins.length = 3 ∧
        (m.ins.getD 1 noType).str = "*testing.T" ∧
        (m.ins.getD 2 noType).str = "interface \x7b\x7d" := by
  constructor
  · intro h
    rcases hd : rt.destructM with _ | m
    · simp only [validateFixtureDestructMethod, hd] at h
      exact Except.noConfusion h
    · simp only [validateFixtureDestructMethod, hd] at h
      split_ifs at h with h1 h2 h3
      exact ⟨m, rfl, not_not.mp h1, not_not.mp h2, not_not.mp h3⟩
  · rintro ⟨m, hd, h1, h2, h3⟩
    simp only [validateFixtureDestructMethod, hd]
    rw [if_neg (not_ne_iff.mpr h1), if_neg (not_ne_iff.mpr h2), if_neg (not_ne_iff.mpr h3)]

/-- Witness for the amended C4 characterization: the Destruct with a
non-empty return and correct parameters is accepted. -/
theorem validate_destruct_characterization_witness :
    validateFixtureDestructMethod badRT = Except.ok () :=
  (validate_destruct_characterization badRT).mpr ⟨badDestructMT, rfl, rfl, rfl, rfl⟩

end Gtest
